import Mathlib

/-!
Verification of the FFC task management system (`src/ffc/core/tasks.py`).

The Python module implements a priority-based, dependency-aware task
scheduler running on a cooperative (asyncio) event loop.  This file gives a
shallow embedding of that module:

* `RetryPolicy.get_delay` is translated directly, over the rationals; the
  random jitter sample `0.8 + (time.time() % 0.4)` is made an explicit
  parameter `j` constrained to `[0.8, 1.2)`.
* The scheduler (`TaskScheduler`) is embedded as a small-step state machine
  `step : Sched → Action → Option Sched`.  Each step corresponds to one
  atomic region of the Python code between genuine suspension points of the
  event loop (`await queue.get()`, the payload invocation itself, and
  `await asyncio.sleep(delay)` on the retry path); everything between two
  such points executes without interleaving under asyncio and is therefore
  one step here.
* A task's payload `task.func(*args, **kwargs)` is opaque to the scheduler;
  it is modelled by an oracle `func : Nat → Except String Nat` giving the
  outcome of the k-th invocation (0-indexed).  The ghost field
  `invocations` counts payload invocations.
* `datetime.now()` is modelled by a logical clock on the scheduler state
  that increments at each reading, so consecutive readings are strictly
  increasing.
* The Python dicts and sets become association lists and duplicate-free
  lists; the single `Task` object shared between `_tasks`, the queue and
  the executing worker is modelled by keeping the task data solely in the
  `tasks` map and passing ids around, which is faithful to the Python
  aliasing for the caller-guaranteed unique ids.
* The optional `resource_tracker` and `telemetry` collaborators are the
  default `None` (spec section 6 treats them as substitutable no-ops);
  a resource-guard failure would surface as an ordinary payload exception,
  which the oracle already covers.
-/

namespace FfcTasks

/-- `TaskStatus` enum from `tasks.py`. -/
inductive TaskStatus where
  | pending
  | running
  | completed
  | failed
  | cancelled
  | waiting
  deriving DecidableEq, Repr

/-- `RetryPolicy.__init__` configuration fields.  `max_retries` is a
nonnegative count as in every use in the module; delays are rationals
standing for the Python floats. -/
structure RetryPolicy where
  max_retries : Nat
  initial_delay : ℚ
  max_delay : ℚ
  backoff_factor : ℚ
  jitter : Bool

/-- `RetryPolicy.get_delay`.  `j` is the jitter sample
`0.8 + (time.time() % 0.4)`, which ranges over `[0.8, 1.2)`. -/
def RetryPolicy.get_delay (p : RetryPolicy) (attempt : Nat) (j : ℚ) : ℚ :=
  let delay := min (p.initial_delay * p.backoff_factor ^ attempt) p.max_delay
  if p.jitter then delay * j else delay

/-- The delay formula as the spec words it (section 3): the exponential
backoff capped by `max_delay`, then optionally scaled by the jitter
factor. -/
def specDelay (p : RetryPolicy) (attempt : Nat) (j : ℚ) : ℚ :=
  min (p.initial_delay * p.backoff_factor ^ attempt) p.max_delay *
    (if p.jitter then j else 1)

/-- The `Task` dataclass.  `func` is the payload outcome oracle (see the
module comment); `invocations` is the ghost invocation counter.  Times are
logical-clock readings. -/
structure Task where
  id : String
  func : Nat → Except String Nat
  priority : Int
  dependencies : List String
  retry_policy : Option RetryPolicy
  status : TaskStatus
  result : Option Nat
  error : Option String
  retry_count : Nat
  scheduled_time : Option Nat
  started_time : Option Nat
  completed_time : Option Nat
  invocations : Nat

/-- `Task.duration`: `completed_time - started_time` when both are set
(datetimes are always truthy in Python, so the guard is a None test). -/
def Task.duration (t : Task) : Option Int :=
  match t.completed_time, t.started_time with
  | some c, some s => some ((c : Int) - (s : Int))
  | _, _ => none

/-- `Task.__lt__`: comparison by priority, used by the heap for
equal-first-component entries. -/
def Task.lt (a b : Task) : Bool :=
  decide (a.priority < b.priority)

/-! ### Finite maps and sets

The Python `dict`s become association lists whose `insert` overwrites, and
the `set`s become duplicate-free string lists. -/

/-- `dict.get`: first binding of the key. -/
def lookupA {α : Type} : List (String × α) → String → Option α
  | [], _ => none
  | e :: m, k => if e.1 = k then some e.2 else lookupA m k

/-- `d[k] = v`: remove any old binding, append the new one. -/
def insertA {α : Type} (m : List (String × α)) (k : String) (v : α) :
    List (String × α) :=
  (m.filter (fun e => !(e.1 = k : Bool))) ++ [(k, v)]

/-- `d.pop(k, ...)`' s removal effect. -/
def eraseA {α : Type} (m : List (String × α)) (k : String) :
    List (String × α) :=
  m.filter (fun e => !(e.1 = k : Bool))

/-- `x in s` on a set of ids. -/
def memS : List String → String → Bool
  | [], _ => false
  | a :: l, x => (x = a : Bool) || memS l x

/-- `s.add(x)`. -/
def addS (l : List String) (x : String) : List String :=
  if memS l x then l else l ++ [x]

/-- `s.remove(x)` (total: removing an absent element is a no-op here; the
scheduler only removes present ids). -/
def removeS (l : List String) (x : String) : List String :=
  l.filter (fun y => !(y = x : Bool))

/-! ### Worker pool -/

/-- The observable phase of one worker coroutine: parked on
`await self._pending.get()`, executing a payload, or sleeping before the
retry re-enqueue. -/
inductive WorkerPhase where
  | idle
  | executing (tid : String)
  | retryWait (tid : String)
  deriving DecidableEq, Repr

/-- The id a worker is currently busy with, if any. -/
def phaseId : WorkerPhase → Option String
  | .idle => none
  | .executing tid => some tid
  | .retryWait tid => some tid

/-- Indexing into the worker list. -/
def getW : List WorkerPhase → Nat → Option WorkerPhase
  | [], _ => none
  | p :: _, 0 => some p
  | _ :: l, n + 1 => getW l n

/-- Updating one worker's phase. -/
def setW : List WorkerPhase → Nat → WorkerPhase → List WorkerPhase
  | [], _, _ => []
  | _ :: l, 0, p => p :: l
  | q :: l, n + 1, p => q :: setW l n p

/-! ### Scheduler state -/

/-- `TaskScheduler` instance state.  `queue` holds the
`(-priority, task)` entries of `self._pending` in insertion order (the
task component is the id, see the aliasing note above); `started` is
`self._pending is not None`; `workers` are all live worker coroutines and
`tracked` how many of them (the most recently spawned) `self._workers`
still references; `clock` is the logical time. -/
structure Sched where
  max_workers : Nat
  tasks : List (String × Task)
  running : List String
  completed : List String
  failed : List String
  queue : List (Int × String)
  waiting_tasks : List (String × List String)
  workers : List WorkerPhase
  tracked : Nat
  stop_event : Bool
  started : Bool
  clock : Nat

/-- `TaskScheduler.__init__`. -/
def initSched (mw : Nat) : Sched :=
  { max_workers := mw
    tasks := []
    running := []
    completed := []
    failed := []
    queue := []
    waiting_tasks := []
    workers := []
    tracked := 0
    stop_event := false
    started := false
    clock := 0 }

/-! ### Submission (`TaskScheduler.submit`, lines 166-197) -/

/-- The registration
`if dep_id not in self._waiting_tasks: self._waiting_tasks[dep_id] = set()`
followed by `self._waiting_tasks[dep_id].add(task.id)`. -/
def registerWaiting (w : List (String × List String)) (dep tid : String) :
    List (String × List String) :=
  match lookupA w dep with
  | none => insertA w dep [tid]
  | some l => insertA w dep (addS l tid)

/-- The `for dep_id in unsatisfied` registration loop (it only touches
`self._waiting_tasks`). -/
def registerFold (w : List (String × List String)) (tid : String) :
    List String → List (String × List String)
  | [] => w
  | d :: ds => registerFold (registerWaiting w d tid) tid ds

/-- Lines 187-192: the not-started check followed by
`await self._pending.put((-task.priority, task))`.  The raised
`RuntimeError` is the `some` component; the state (with the already
performed `self._tasks[task.id] = task`) is returned alongside it. -/
def pushPending (s : Sched) (task : Task) : Option String × Sched :=
  if !s.started then (some "Scheduler not started", s)
  else (none, { s with queue := s.queue ++ [(-task.priority, task.id)] })

/-- `TaskScheduler.submit`.  First `self._tasks[task.id] = task`; then the
dependency gate: with a non-empty unsatisfied set the task is marked
WAITING, registered under each unsatisfied dependency and the method
returns; otherwise the task goes to the ready queue (raising if the
scheduler was never started). -/
def TaskScheduler.submit (s : Sched) (task : Task) : Option String × Sched :=
  let s1 : Sched := { s with tasks := insertA s.tasks task.id task }
  if task.dependencies.isEmpty then pushPending s1 task
  else
    let unsatisfied := task.dependencies.filter (fun d => !(memS s1.completed d))
    if unsatisfied.isEmpty then pushPending s1 task
    else
      let task2 : Task := { task with status := TaskStatus.waiting }
      let s2 : Sched := { s1 with tasks := insertA s1.tasks task.id task2 }
      (none, { s2 with
                waiting_tasks := registerFold s2.waiting_tasks task.id unsatisfied })

/-! ### Execution (`TaskScheduler._execute_task`, lines 199-249, and the
worker loop `_worker`, lines 263-283)

`_execute_task` is split at its genuine suspension points into three step
bodies: `startExec` (the pop plus lines 201-203), `finishExec` (the payload
outcome and its handling up to either the terminal bookkeeping or the
retry sleep), and `requeueExec` (the re-enqueue after the sleep plus the
`finally` clause). -/

/-- The `finally: task.completed_time = datetime.now()` clause.  The
mutated object is the one stored in `self._tasks` (same reference). -/
def setCompletedNow (s : Sched) (tid : String) : Sched :=
  let t2 := s.clock
  let s1 : Sched := { s with clock := s.clock + 1 }
  match lookupA s1.tasks tid with
  | none => s1
  | some task =>
      { s1 with tasks := insertA s1.tasks tid { task with completed_time := some t2 } }

/-- The body of the `for task_id in waiting_tasks` loop of
`_check_dependent_tasks`: if every dependency of the parked task is now
completed, it becomes PENDING and is pushed to the ready queue. -/
def releaseOne (s : Sched) (task_id : String) : Sched :=
  match lookupA s.tasks task_id with
  | none => s
  | some task =>
      if task.dependencies.all (fun d => memS s.completed d) then
        { s with
            tasks := insertA s.tasks task_id { task with status := TaskStatus.pending }
            queue := s.queue ++ [(-task.priority, task_id)] }
      else s

/-- The `for task_id in waiting_tasks` loop. -/
def releaseDeps (s : Sched) : List String → Sched
  | [] => s
  | tid :: rest => releaseDeps (releaseOne s tid) rest

/-- `TaskScheduler._check_dependent_tasks`:
`waiting_tasks = self._waiting_tasks.pop(completed_task.id, set())`
followed by the release loop. -/
def check_dependent_tasks (s : Sched) (completed_id : String) : Sched :=
  let waiting := (lookupA s.waiting_tasks completed_id).getD []
  let s1 : Sched := { s with waiting_tasks := eraseA s.waiting_tasks completed_id }
  releaseDeps s1 waiting

/-- Selecting the entry `asyncio.PriorityQueue.get` returns: a minimal
first component (the negated priority); ties go to the earliest insertion.
(The heap's tie order among equal keys falls through to `Task.__lt__` and
is not relied on by any claim, which all use distinct priorities.) -/
def popMin : List (Int × String) → Option ((Int × String) × List (Int × String))
  | [] => none
  | e :: l =>
      match popMin l with
      | none => some (e, [])
      | some (m, rest) =>
          if e.1 ≤ m.1 then some (e, l) else some (m, e :: rest)

/-- Success bookkeeping, lines 212-218: mark COMPLETED, stamp
`completed_time`, move the id from `running` to `completed`, then release
dependents.  (`task` carries the already-assigned `result`.) -/
def completeBody (s : Sched) (tid : String) (task : Task) : Sched :=
  let t1 := s.clock
  let s1 : Sched := { s with clock := s.clock + 1 }
  let task1 : Task := { task with status := TaskStatus.completed, completed_time := some t1 }
  let s2 : Sched :=
    { s1 with
        tasks := insertA s1.tasks tid task1
        completed := addS s1.completed tid
        running := removeS s1.running tid }
  check_dependent_tasks s2 tid

/-- Terminal failure bookkeeping, lines 233-236: mark FAILED, record the
exception, move the id from `running` to `failed`. -/
def failBody (s : Sched) (tid : String) (task : Task) (e : String) : Sched :=
  let task1 : Task := { task with status := TaskStatus.failed, error := some e }
  { s with
      tasks := insertA s.tasks tid task1
      failed := addS s.failed tid
      running := removeS s.running tid }

/-- Worker `w` pops the ready queue and begins `_execute_task` (lines
274-277 of `_worker` and 201-203 of `_execute_task`): stamp
`started_time`, set RUNNING, add to the running set.  Enabled only for an
idle worker that has not observed the stop signal, with a non-empty
queue. -/
def startExec (s : Sched) (w : Nat) : Option Sched :=
  match getW s.workers w with
  | some WorkerPhase.idle =>
      if s.stop_event then none
      else
        match popMin s.queue with
        | none => none
        | some (e, rest) =>
            match lookupA s.tasks e.2 with
            | none => none
            | some task =>
                let t0 := s.clock
                let task1 : Task :=
                  { task with started_time := some t0, status := TaskStatus.running }
                some { s with
                        queue := rest
                        clock := s.clock + 1
                        tasks := insertA s.tasks e.2 task1
                        running := addS s.running e.2
                        workers := setW s.workers w (WorkerPhase.executing e.2) }
  | _ => none

/-- The payload of worker `w`'s task returns or raises (the oracle decides
which), and `_execute_task` handles the outcome without further
suspension: success runs lines 212-218 plus the `finally`; a retryable
failure increments `retry_count` and enters the backoff sleep (the slept
delay is real time, outside this state model; its value is verified
separately via `RetryPolicy.get_delay`); a terminal failure runs lines
233-236 plus the `finally`. -/
def finishExec (s : Sched) (w : Nat) : Option Sched :=
  match getW s.workers w with
  | some (WorkerPhase.executing tid) =>
      match lookupA s.tasks tid with
      | none => none
      | some task =>
          let outcome := task.func task.invocations
          let task1 : Task := { task with invocations := task.invocations + 1 }
          match outcome with
          | Except.ok v =>
              let s1 : Sched := { s with workers := setW s.workers w WorkerPhase.idle }
              let s2 := completeBody s1 tid { task1 with result := some v }
              some (setCompletedNow s2 tid)
          | Except.error e =>
              match task1.retry_policy with
              | some rp =>
                  if task1.retry_count < rp.max_retries then
                    let task2 : Task := { task1 with retry_count := task1.retry_count + 1 }
                    some { s with
                            tasks := insertA s.tasks tid task2
                            workers := setW s.workers w (WorkerPhase.retryWait tid) }
                  else
                    let s1 : Sched := { s with workers := setW s.workers w WorkerPhase.idle }
                    some (setCompletedNow (failBody s1 tid task1 e) tid)
              | none =>
                  let s1 : Sched := { s with workers := setW s.workers w WorkerPhase.idle }
                  some (setCompletedNow (failBody s1 tid task1 e) tid)
  | _ => none

/-- Worker `w` wakes from the backoff sleep:
`await self._pending.put((-task.priority, task))` (line 231) followed by
the `finally` clause; the task keeps status RUNNING and stays in the
running set. -/
def requeueExec (s : Sched) (w : Nat) : Option Sched :=
  match getW s.workers w with
  | some (WorkerPhase.retryWait tid) =>
      match lookupA s.tasks tid with
      | none => none
      | some task =>
          let s1 : Sched :=
            { s with
                queue := s.queue ++ [(-task.priority, tid)]
                workers := setW s.workers w WorkerPhase.idle }
          some (setCompletedNow s1 tid)
  | _ => none

/-- `TaskScheduler.start`, lines 285-298: create the queue if absent, then
unconditionally replace `self._workers` with `max_workers` freshly spawned
workers.  Previously spawned workers keep running but are no longer
tracked. -/
def TaskScheduler.start (s : Sched) : Sched :=
  let s1 : Sched := if !s.started then { s with started := true } else s
  { s1 with
      workers := s1.workers ++ List.replicate s1.max_workers WorkerPhase.idle
      tracked := s1.max_workers }

/-- `TaskScheduler.stop`, lines 300-305: set the stop event, cancel the
workers in `self._workers` (the most recent batch only) and await them.
`tracked` drops to zero: a second `stop` cancels already-finished
coroutines, a no-op. -/
def TaskScheduler.stop (s : Sched) : Sched :=
  { s with
      stop_event := true
      workers := s.workers.take (s.workers.length - s.tracked)
      tracked := 0 }

/-- `TaskScheduler.get_task`. -/
def TaskScheduler.get_task (s : Sched) (tid : String) : Option Task :=
  lookupA s.tasks tid

/-- The dictionary `TaskScheduler.stats` returns. -/
structure Stats where
  pending : Nat
  running : Nat
  completed : Nat
  failed : Nat
  total : Nat
  deriving DecidableEq, Repr

/-- `TaskScheduler.stats` (property, lines 311-320). -/
def TaskScheduler.stats (s : Sched) : Stats :=
  { pending := if s.started then s.queue.length else 0
    running := s.running.length
    completed := s.completed.length
    failed := s.failed.length
    total := s.tasks.length }

/-! ### The step machine -/

/-- One schedulable event: a caller action (`submit`, `start`, `stop`) or
one worker's atomic region. -/
inductive Action where
  | start
  | stop
  | submit (t : Task)
  | pop (w : Nat)
  | finish (w : Nat)
  | requeue (w : Nat)

/-- The small-step transition function; `none` means the action is not
enabled in this state (the worker is parked, the queue is empty, ...). -/
def step (s : Sched) : Action → Option Sched
  | .start => some (TaskScheduler.start s)
  | .stop => some (TaskScheduler.stop s)
  | .submit t => some (TaskScheduler.submit s t).2
  | .pop w => startExec s w
  | .finish w => finishExec s w
  | .requeue w => requeueExec s w

/-- Running a schedule of actions. -/
def applyActions (l : List Action) (s : Sched) : Option Sched :=
  match l with
  | [] => some s
  | a :: rest =>
      match step s a with
      | none => none
      | some s1 => applyActions rest s1

/-- A freshly constructed, not-yet-submitted task: the dataclass defaults
for every runtime field, and an id not already known to the scheduler
(uniqueness of ids is the caller's responsibility per the spec, section
3). -/
def freshTask (s : Sched) (t : Task) : Prop :=
  lookupA s.tasks t.id = none ∧ t.status = TaskStatus.pending ∧
    t.result = none ∧ t.error = none ∧ t.retry_count = 0 ∧
    t.started_time = none ∧ t.completed_time = none ∧ t.invocations = 0

/-- The caller contract on an action. -/
def okAction (s : Sched) : Action → Prop
  | .submit t => freshTask s t
  | _ => True

/-- States reachable from a freshly constructed scheduler through
contract-respecting actions. -/
inductive Reach : Sched → Prop where
  | init (mw : Nat) : Reach (initSched mw)
  | next {s s' : Sched} {a : Action} :
      Reach s → okAction s a → step s a = some s' → Reach s'

/-! ### Basic lemmas about the container operations -/

theorem memS_iff (l : List String) (x : String) : memS l x = true ↔ x ∈ l := by
  induction l with
  | nil => simp [memS]
  | cons a l ih =>
      rw [List.mem_cons]
      unfold memS
      rw [Bool.or_eq_true, decide_eq_true_eq, ih]

theorem mem_addS {l : List String} {x a : String} :
    a ∈ addS l x ↔ a ∈ l ∨ a = x := by
  unfold addS
  by_cases h : memS l x = true
  · simp only [h, if_true]
    constructor
    · exact Or.inl
    · rintro (ha | rfl)
      · exact ha
      · exact (memS_iff l a).mp h
  · simp [h, List.mem_append]

theorem mem_removeS {l : List String} {x a : String} :
    a ∈ removeS l x ↔ a ∈ l ∧ a ≠ x := by
  unfold removeS
  simp [List.mem_filter]

theorem lookupA_append {α : Type} (m1 m2 : List (String × α)) (k : String) :
    lookupA (m1 ++ m2) k =
      match lookupA m1 k with
      | some v => some v
      | none => lookupA m2 k := by
  induction m1 with
  | nil => simp [lookupA]
  | cons e m1 ih =>
      by_cases h : e.1 = k
      · simp [lookupA, h]
      · simp [lookupA, h, ih]

theorem lookupA_filterKey_self {α : Type} (m : List (String × α)) (k : String) :
    lookupA (m.filter (fun e => !(e.1 = k : Bool))) k = none := by
  induction m with
  | nil => simp [lookupA]
  | cons e m ih =>
      by_cases h : e.1 = k
      · simpa [List.filter, h] using ih
      · simpa [List.filter, h, lookupA] using ih

theorem lookupA_filterKey_other {α : Type} (m : List (String × α))
    (k k' : String) (h : k' ≠ k) :
    lookupA (m.filter (fun e => !(e.1 = k : Bool))) k' = lookupA m k' := by
  have hk : ¬(k = k') := fun hc => h hc.symm
  induction m with
  | nil => simp
  | cons e m ih =>
      by_cases he : e.1 = k
      · have hne : e.1 ≠ k' := fun hc => h (hc ▸ he)
        simp [List.filter, he, lookupA, hne, hk, ih]
      · by_cases he' : e.1 = k'
        · simp [List.filter, he, lookupA, he', h]
        · simp [List.filter, he, lookupA, he', ih]

theorem lookupA_insertA_self {α : Type} (m : List (String × α)) (k : String)
    (v : α) : lookupA (insertA m k v) k = some v := by
  unfold insertA
  rw [lookupA_append, lookupA_filterKey_self]
  simp [lookupA]

theorem lookupA_insertA_ne {α : Type} (m : List (String × α)) (k k' : String)
    (v : α) (h : k' ≠ k) : lookupA (insertA m k v) k' = lookupA m k' := by
  unfold insertA
  rw [lookupA_append, lookupA_filterKey_other m k k' h]
  have hk : ¬(k = k') := fun hc => h hc.symm
  cases hm : lookupA m k' with
  | some w => rfl
  | none => simp [lookupA, hk]

theorem lookupA_eraseA {α : Type} (m : List (String × α)) (k k' : String) :
    lookupA (eraseA m k) k' = if k' = k then none else lookupA m k' := by
  unfold eraseA
  by_cases h : k' = k
  · subst h
    simp [lookupA_filterKey_self]
  · simp [h, lookupA_filterKey_other m k k' h]

/-- A present key means some binding. -/
theorem lookupA_isSome_of_mem {α : Type} {m : List (String × α)}
    {e : String × α} (h : e ∈ m) : (lookupA m e.1).isSome := by
  induction m with
  | nil => cases h
  | cons f m ih =>
      rcases List.mem_cons.mp h with rfl | h
      · simp [lookupA]
      · by_cases hf : f.1 = e.1
        · simp [lookupA, hf]
        · simpa [lookupA, hf] using ih h

/-- A key with no binding heads no element. -/
theorem ne_fst_of_lookupA_none {α : Type} {m : List (String × α)} {k : String}
    (h : lookupA m k = none) : ∀ e ∈ m, e.1 ≠ k := by
  intro e he hc
  have h2 := lookupA_isSome_of_mem he
  rw [hc, h] at h2
  simp at h2

theorem length_insertA_fresh {α : Type} {m : List (String × α)} {k : String}
    (v : α) (h : lookupA m k = none) :
    (insertA m k v).length = m.length + 1 := by
  unfold insertA
  have heq : m.filter (fun e => !(e.1 = k : Bool)) = m := by
    apply List.filter_eq_self.mpr
    intro e he
    simpa using ne_fst_of_lookupA_none h e he
  simp [heq]

theorem getW_setW_self {l : List WorkerPhase} {n : Nat} {a : WorkerPhase}
    (h : (getW l n).isSome) : getW (setW l n a) n = some a := by
  induction l generalizing n with
  | nil => simp [getW] at h
  | cons p l ih =>
      cases n with
      | zero => simp [getW, setW]
      | succ n =>
          simp only [getW, setW] at h ⊢
          exact ih h

theorem getW_setW_ne (l : List WorkerPhase) (n m : Nat) (a : WorkerPhase)
    (h : m ≠ n) : getW (setW l n a) m = getW l m := by
  induction l generalizing n m with
  | nil => simp [setW]
  | cons p l ih =>
      cases n with
      | zero =>
          cases m with
          | zero => exact absurd rfl h
          | succ m => simp [getW, setW]
      | succ n =>
          cases m with
          | zero => simp [getW, setW]
          | succ m =>
              simp only [getW, setW]
              exact ih n m (fun hc => h (by rw [hc]))

theorem getW_append_left {l l' : List WorkerPhase} {n : Nat}
    (h : n < l.length) : getW (l ++ l') n = getW l n := by
  induction l generalizing n with
  | nil => simp at h
  | cons p l ih =>
      cases n with
      | zero => simp [getW]
      | succ n =>
          simp only [List.cons_append, getW]
          exact ih (by simpa using h)

theorem getW_mem {l : List WorkerPhase} {n : Nat} {a : WorkerPhase}
    (h : getW l n = some a) : a ∈ l := by
  induction l generalizing n with
  | nil => simp [getW] at h
  | cons p l ih =>
      cases n with
      | zero =>
          simp [getW] at h
          simp [h]
      | succ n =>
          simp only [getW] at h
          exact List.mem_cons_of_mem p (ih h)

/-! ### `popMin` facts -/

theorem popMin_none_iff (l : List (Int × String)) : popMin l = none ↔ l = [] := by
  cases l with
  | nil => simp [popMin]
  | cons e l =>
      simp only [popMin]
      cases h : popMin l with
      | none => simp
      | some p =>
          cases p with
          | mk m rest => by_cases hle : e.1 ≤ m.1 <;> simp [hle]

theorem popMin_perm {l : List (Int × String)} {m : Int × String}
    {rest : List (Int × String)} (h : popMin l = some (m, rest)) :
    l.Perm (m :: rest) := by
  induction l generalizing m rest with
  | nil => simp [popMin] at h
  | cons e l ih =>
      cases hl : popMin l with
      | none =>
          rw [popMin_none_iff] at hl
          subst hl
          simp [popMin] at h
          rcases h with ⟨rfl, rfl⟩
          exact List.Perm.refl _
      | some p =>
          cases p with
          | mk m0 rest0 =>
              simp only [popMin, hl] at h
              by_cases hle : e.1 ≤ m0.1
              · simp [hle] at h
                rcases h with ⟨rfl, rfl⟩
                exact List.Perm.refl _
              · simp [hle] at h
                rcases h with ⟨rfl, rfl⟩
                exact ((ih hl).cons e).trans (List.Perm.swap m0 e rest0)

theorem popMin_min {l : List (Int × String)} {m : Int × String}
    {rest : List (Int × String)} (h : popMin l = some (m, rest)) :
    ∀ x ∈ l, m.1 ≤ x.1 := by
  induction l generalizing m rest with
  | nil => simp [popMin] at h
  | cons e l ih =>
      cases hl : popMin l with
      | none =>
          rw [popMin_none_iff] at hl
          subst hl
          simp [popMin] at h
          rcases h with ⟨rfl, rfl⟩
          intro x hx
          simp at hx
          subst hx
          exact le_refl _
      | some p =>
          cases p with
          | mk m0 rest0 =>
              simp only [popMin, hl] at h
              by_cases hle : e.1 ≤ m0.1
              · simp [hle] at h
                rcases h with ⟨rfl, rfl⟩
                intro x hx
                rcases List.mem_cons.mp hx with rfl | hx
                · exact le_refl _
                · exact le_trans hle (ih hl x hx)
              · simp [hle] at h
                rcases h with ⟨rfl, rfl⟩
                intro x hx
                rcases List.mem_cons.mp hx with rfl | hx
                · exact le_of_lt (lt_of_not_le hle)
                · exact ih hl x hx

theorem popMin_mem {l : List (Int × String)} {m : Int × String}
    {rest : List (Int × String)} (h : popMin l = some (m, rest)) : m ∈ l :=
  (popMin_perm h).symm.subset (List.mem_cons_self m rest)

theorem popMin_rest_subset {l : List (Int × String)} {m : Int × String}
    {rest : List (Int × String)} (h : popMin l = some (m, rest)) :
    ∀ x ∈ rest, x ∈ l := fun x hx =>
  (popMin_perm h).symm.subset (List.mem_cons_of_mem m hx)

/-! ### Claim C2: the retry delay formula and its bounds -/

/--
C2 (counterexample).  The claim states that `get_delay` "never exceeds
max_delay, regardless of whether jitter is enabled".  With jitter enabled
the code multiplies the capped delay by `0.8 + (time.time() % 0.4)`, which
can reach values above 1, so the cap is exceeded: for the policy with
`initial_delay = max_delay = 60` at attempt 0 and jitter sample 1.1 (a
legal sample, since `time.time() % 0.4` can be 0.3) the returned delay is
66 > 60.
-/
theorem C2_counterexample :
    (4 / 5 : ℚ) ≤ 11 / 10 ∧ (11 / 10 : ℚ) < 6 / 5 ∧
      RetryPolicy.get_delay
          { max_retries := 3, initial_delay := 60, max_delay := 60,
            backoff_factor := 2, jitter := true } 0 (11 / 10) = 66 ∧
      ¬ RetryPolicy.get_delay
          { max_retries := 3, initial_delay := 60, max_delay := 60,
            backoff_factor := 2, jitter := true } 0 (11 / 10) ≤ 60 := by
  refine ⟨by norm_num, by norm_num, ?_, ?_⟩ <;> simp [RetryPolicy.get_delay] <;> norm_num

/--
C2 (amended).  For every policy with nonnegative `initial_delay`,
`max_delay` and `backoff_factor` and every attempt `n`, `get_delay`
computes `min(initial_delay * backoff_factor^n, max_delay)`, scaled by the
jitter sample `j ∈ [0.8, 1.2)` when jitter is enabled; the result is never
negative; without jitter it never exceeds `max_delay`; with or without
jitter it never exceeds `1.2 * max_delay` (the cap claimed "regardless of
jitter" holds only up to the jitter factor).
-/
theorem C2_get_delay_spec (p : RetryPolicy) (n : Nat) (j : ℚ)
    (h0 : 0 ≤ p.initial_delay) (h1 : 0 ≤ p.max_delay)
    (h2 : 0 ≤ p.backoff_factor) (hj0 : 4 / 5 ≤ j) (hj1 : j < 6 / 5) :
    RetryPolicy.get_delay p n j = specDelay p n j ∧
      0 ≤ RetryPolicy.get_delay p n j ∧
      (p.jitter = false → RetryPolicy.get_delay p n j ≤ p.max_delay) ∧
      RetryPolicy.get_delay p n j ≤ 6 / 5 * p.max_delay := by
  have hj0' : (0 : ℚ) ≤ j := le_trans (by norm_num) hj0
  have hmin0 : 0 ≤ min (p.initial_delay * p.backoff_factor ^ n) p.max_delay :=
    le_min (mul_nonneg h0 (pow_nonneg h2 n)) h1
  have hminM : min (p.initial_delay * p.backoff_factor ^ n) p.max_delay ≤
      p.max_delay := min_le_right _ _
  unfold RetryPolicy.get_delay specDelay
  cases hjit : p.jitter with
  | false =>
      refine ⟨by simp, by simpa using hmin0, fun _ => by simpa using hminM, ?_⟩
      simp only [if_neg (by simp [hjit] : ¬ (false = true))]
      nlinarith [hminM, h1]
  | true =>
      refine ⟨by simp, ?_, fun hc => by simp at hc, ?_⟩
      · simpa using mul_nonneg hmin0 hj0'
      · simp only [if_true]
        have hb := mul_le_mul hminM (le_of_lt hj1) hj0' h1
        nlinarith [hb]

/-- Witness for `C2_get_delay_spec` at a concrete policy, attempt and
jitter sample. -/
theorem C2_get_delay_spec_witness :
    RetryPolicy.get_delay
        { max_retries := 3, initial_delay := 1, max_delay := 60,
          backoff_factor := 2, jitter := true } 2 1 = specDelay
        { max_retries := 3, initial_delay := 1, max_delay := 60,
          backoff_factor := 2, jitter := true } 2 1 ∧
      0 ≤ RetryPolicy.get_delay
        { max_retries := 3, initial_delay := 1, max_delay := 60,
          backoff_factor := 2, jitter := true } 2 1 ∧
      ((true : Bool) = false → RetryPolicy.get_delay
        { max_retries := 3, initial_delay := 1, max_delay := 60,
          backoff_factor := 2, jitter := true } 2 1 ≤ 60) ∧
      RetryPolicy.get_delay
        { max_retries := 3, initial_delay := 1, max_delay := 60,
          backoff_factor := 2, jitter := true } 2 1 ≤ 6 / 5 * 60 :=
  C2_get_delay_spec
    { max_retries := 3, initial_delay := 1, max_delay := 60,
      backoff_factor := 2, jitter := true } 2 1 (by norm_num) (by norm_num)
    (by norm_num) (by norm_num) (by norm_num)

/-! ### Claims C6, C7, C8: `start`, `stop` and `submit` edge behaviour -/

/-- `start()` applied `k` times in a row. -/
def startIter : Nat → Sched → Sched
  | 0, s => s
  | k + 1, s => TaskScheduler.start (startIter k s)

theorem start_workers_length (s : Sched) :
    (TaskScheduler.start s).workers.length = s.workers.length + s.max_workers := by
  unfold TaskScheduler.start
  by_cases h : s.started <;> simp [h]

theorem start_tracked (s : Sched) :
    (TaskScheduler.start s).tracked = s.max_workers := by
  unfold TaskScheduler.start
  by_cases h : s.started <;> simp [h]

theorem start_max_workers (s : Sched) :
    (TaskScheduler.start s).max_workers = s.max_workers := by
  unfold TaskScheduler.start
  by_cases h : s.started <;> simp [h]

theorem startIter_max_workers (k : Nat) (s : Sched) :
    (startIter k s).max_workers = s.max_workers := by
  induction k with
  | zero => rfl
  | succ k ih => rw [startIter, start_max_workers, ih]

theorem startIter_workers_length (k : Nat) (s : Sched) :
    (startIter k s).workers.length = s.workers.length + k * s.max_workers := by
  induction k with
  | zero => simp [startIter]
  | succ k ih =>
      rw [startIter, start_workers_length, ih, startIter_max_workers]
      ring

/--
C6 (counterexample).  The claim states that a second `start()` "spawns no
additional workers, so after any number of start() calls exactly
max_workers workers exist and stop() terminates all of them".  In the code
`start` unconditionally replaces `self._workers` with a freshly spawned
batch of `max_workers` workers (only the queue creation is guarded), so on
a 1-worker scheduler two `start()` calls leave 2 live workers, and `stop()`
cancels only the tracked batch, leaving 1 worker alive.
-/
theorem C6_counterexample :
    (TaskScheduler.start (TaskScheduler.start (initSched 1))).workers.length = 2 ∧
      ¬ (TaskScheduler.start (TaskScheduler.start (initSched 1))).workers.length = 1 ∧
      (TaskScheduler.stop
          (TaskScheduler.start (TaskScheduler.start (initSched 1)))).workers.length = 1 ∧
      ¬ (TaskScheduler.stop
          (TaskScheduler.start (TaskScheduler.start (initSched 1)))).workers.length = 0 := by
  refine ⟨rfl, by decide, rfl, by decide⟩

/--
C6 (amended).  `start()` is not an idempotent no-op: only the ready-queue
creation is guarded by the already-started test.  Every call spawns
`max_workers` fresh workers and replaces the tracked list with the new
batch, so after `k` calls on a fresh scheduler `k * max_workers` workers
are alive, and `stop()` cancels exactly the most recent `max_workers` of
them, leaving `(k - 1) * max_workers` untracked workers running.
-/
theorem C6_start_spawns_each_call (k mw : Nat) (hk : 1 ≤ k) :
    (startIter k (initSched mw)).workers.length = k * mw ∧
      (TaskScheduler.stop (startIter k (initSched mw))).workers.length =
        (k - 1) * mw := by
  have hlen : (startIter k (initSched mw)).workers.length = k * mw := by
    rw [startIter_workers_length]
    simp [initSched]
  refine ⟨hlen, ?_⟩
  obtain ⟨k0, rfl⟩ := Nat.exists_eq_add_of_le hk
  have htr : (startIter (1 + k0) (initSched mw)).tracked = mw := by
    have h1 : 1 + k0 = k0 + 1 := Nat.add_comm 1 k0
    rw [h1, startIter, start_tracked, startIter_max_workers]
    rfl
  have hmul : (1 + k0) * mw = mw + k0 * mw := by ring
  unfold TaskScheduler.stop
  simp only [htr, hlen, List.length_take, hmul, Nat.add_sub_cancel_left,
    Nat.add_sub_cancel]
  exact Nat.min_eq_left (Nat.le_add_left _ _)

/-- Witness for `C6_start_spawns_each_call`: two `start()` calls on a
2-worker scheduler leave 4 workers, and `stop()` leaves 2. -/
theorem C6_start_spawns_each_call_witness :
    (startIter 2 (initSched 2)).workers.length = 2 * 2 ∧
      (TaskScheduler.stop (startIter 2 (initSched 2))).workers.length =
        (2 - 1) * 2 :=
  C6_start_spawns_each_call 2 2 (by decide)

/-- A concrete task with one (unsatisfied) dependency, for C7. -/
def c7task : Task :=
  { id := "b"
    func := fun _ => Except.ok 0
    priority := 0
    dependencies := ["a"]
    retry_policy := none
    status := TaskStatus.pending
    result := none
    error := none
    retry_count := 0
    scheduled_time := some 0
    started_time := none
    completed_time := none
    invocations := 0 }

/--
C7 (counterexample).  The claim states that `submit` on a never-started
scheduler fails with the invalid-state error "regardless of whether the
task's dependency set is empty, satisfied, or unsatisfied".  But the
dependency branch of `submit` returns before the `self._pending is None`
check, so a task with an unsatisfied dependency submitted to a
never-started scheduler raises nothing: it is parked WAITING.
-/
theorem C7_counterexample :
    (initSched 1).started = false ∧
      (TaskScheduler.submit (initSched 1) c7task).1 = none ∧
      (TaskScheduler.get_task (TaskScheduler.submit (initSched 1) c7task).2
          "b").map Task.status = some TaskStatus.waiting := by
  refine ⟨rfl, rfl, rfl⟩

/--
C7 (amended).  On a never-started scheduler, `submit` raises the
invalid-state `RuntimeError` exactly when the task would be enqueued
(dependency set empty or fully satisfied); a task with a non-empty
unsatisfied dependency set is instead recorded as WAITING and registered,
with no error raised.
-/
theorem C7_submit_not_started (s : Sched) (t : Task) (hs : s.started = false) :
    ((t.dependencies = [] ∨
        t.dependencies.filter (fun d => !(memS s.completed d)) = []) →
      (TaskScheduler.submit s t).1 = some "Scheduler not started") ∧
      (¬ t.dependencies = [] →
        ¬ t.dependencies.filter (fun d => !(memS s.completed d)) = [] →
        (TaskScheduler.submit s t).1 = none ∧
          lookupA (TaskScheduler.submit s t).2.tasks t.id =
            some { t with status := TaskStatus.waiting }) := by
  constructor
  · rintro (hd | hd)
    · simp [TaskScheduler.submit, pushPending, hd, hs]
    · cases hde : t.dependencies.isEmpty
      · simp [TaskScheduler.submit, pushPending, hd, hde, hs]
      · simp [TaskScheduler.submit, pushPending, hde, hs]
  · intro hd hu
    have hdb : t.dependencies.isEmpty = false := by
      cases h : t.dependencies.isEmpty
      · rfl
      · exact absurd (List.isEmpty_iff.mp h) hd
    have hub : (t.dependencies.filter
        (fun d => !(memS s.completed d))).isEmpty = false := by
      cases h : (t.dependencies.filter (fun d => !(memS s.completed d))).isEmpty
      · rfl
      · exact absurd (List.isEmpty_iff.mp h) hu
    refine ⟨?_, ?_⟩
    · simp [TaskScheduler.submit, hdb, hub]
    · simp only [TaskScheduler.submit, hdb, hub, Bool.false_eq_true, if_false]
      exact lookupA_insertA_self _ t.id _

/-- Witness for `C7_submit_not_started` on the concrete never-started
scheduler and the one-dependency task. -/
theorem C7_submit_not_started_witness :
    ((c7task.dependencies = [] ∨
        c7task.dependencies.filter
          (fun d => !(memS (initSched 1).completed d)) = []) →
      (TaskScheduler.submit (initSched 1) c7task).1 =
        some "Scheduler not started") ∧
      (¬ c7task.dependencies = [] →
        ¬ c7task.dependencies.filter
            (fun d => !(memS (initSched 1).completed d)) = [] →
        (TaskScheduler.submit (initSched 1) c7task).1 = none ∧
          lookupA (TaskScheduler.submit (initSched 1) c7task).2.tasks
              c7task.id =
            some { c7task with status := TaskStatus.waiting }) :=
  C7_submit_not_started (initSched 1) c7task rfl

/--
C8 (confirmed).  `submit` performs `self._tasks[task.id] = task` before the
not-started check, so when it raises the "Scheduler not started" error the
task is already in the tasks map: `get_task` finds it and `stats["total"]`
counts it.
-/
theorem C8_submit_error_keeps_insertion (s : Sched) (t : Task)
    (hs : s.started = false)
    (hd : t.dependencies = [] ∨
      t.dependencies.filter (fun d => !(memS s.completed d)) = [])
    (hfresh : lookupA s.tasks t.id = none) :
    (TaskScheduler.submit s t).1 = some "Scheduler not started" ∧
      TaskScheduler.get_task (TaskScheduler.submit s t).2 t.id = some t ∧
      (TaskScheduler.stats (TaskScheduler.submit s t).2).total =
        (TaskScheduler.stats s).total + 1 := by
  have h1 : (TaskScheduler.submit s t).1 = some "Scheduler not started" := by
    rcases hd with hd | hd
    · simp [TaskScheduler.submit, pushPending, hd, hs]
    · cases hde : t.dependencies.isEmpty
      · simp [TaskScheduler.submit, pushPending, hd, hde, hs]
      · simp [TaskScheduler.submit, pushPending, hde, hs]
  have h2 : (TaskScheduler.submit s t).2.tasks = insertA s.tasks t.id t := by
    rcases hd with hd | hd
    · simp [TaskScheduler.submit, pushPending, hd, hs]
    · cases hde : t.dependencies.isEmpty
      · simp [TaskScheduler.submit, pushPending, hd, hde, hs]
      · simp [TaskScheduler.submit, pushPending, hde, hs]
  refine ⟨h1, ?_, ?_⟩
  · unfold TaskScheduler.get_task
    rw [h2]
    exact lookupA_insertA_self s.tasks t.id t
  · simp only [TaskScheduler.stats]
    rw [h2]
    exact length_insertA_fresh t hfresh

/-- Witness for `C8_submit_error_keeps_insertion` on a concrete
never-started scheduler and dependency-free task. -/
theorem C8_submit_error_keeps_insertion_witness :
    (TaskScheduler.submit (initSched 1)
        { c7task with dependencies := [] }).1 = some "Scheduler not started" ∧
      TaskScheduler.get_task
          (TaskScheduler.submit (initSched 1)
            { c7task with dependencies := [] }).2
          { c7task with dependencies := [] }.id =
        some { c7task with dependencies := [] } ∧
      (TaskScheduler.stats
          (TaskScheduler.submit (initSched 1)
            { c7task with dependencies := [] }).2).total =
        (TaskScheduler.stats (initSched 1)).total + 1 :=
  C8_submit_error_keeps_insertion (initSched 1)
    { c7task with dependencies := [] } rfl (Or.inl rfl) rfl

/-! ### Claim C4: priority ordering of the ready queue

A single worker that drains the queue executes tasks in the order the
repeated `popMin` yields; with all tasks enqueued before the first pop and
no dependencies or retries, no step other than the pops touches the queue,
so the pop order is the execution order. -/

/-- Repeatedly popping the queue (fuel-driven; the fuel is the length). -/
def popAll : Nat → List (Int × String) → List (Int × String)
  | 0, _ => []
  | n + 1, l =>
      match popMin l with
      | none => []
      | some (m, rest) => m :: popAll n rest

/-- Submitting a list of tasks in order. -/
def submitAll (s : Sched) : List Task → Sched
  | [] => s
  | t :: ts => submitAll (TaskScheduler.submit s t).2 ts

/-- The `(-priority, id)` sequence a single worker pops after the given
tasks are all submitted to a freshly started 1-worker scheduler. -/
def execOrder (ts : List Task) : List (Int × String) :=
  popAll (submitAll (TaskScheduler.start (initSched 1)) ts).queue.length
    (submitAll (TaskScheduler.start (initSched 1)) ts).queue

theorem popAll_perm : ∀ (n : Nat) (l : List (Int × String)), n = l.length →
    (popAll n l).Perm l := by
  intro n
  induction n with
  | zero =>
      intro l hl
      cases l with
      | nil => exact List.Perm.refl _
      | cons e l => simp at hl
  | succ n ih =>
      intro l hl
      cases hm : popMin l with
      | none =>
          rw [popMin_none_iff] at hm
          subst hm
          simp at hl
      | some p =>
          cases p with
          | mk m rest =>
              have hperm := popMin_perm hm
              have hrest : n = rest.length := by
                have := hperm.length_eq
                simp at this
                omega
              simp only [popAll, hm]
              exact ((ih rest hrest).cons m).trans hperm.symm

theorem popAll_sorted : ∀ (n : Nat) (l : List (Int × String)), n = l.length →
    (popAll n l).Pairwise (fun a b => a.1 ≤ b.1) := by
  intro n
  induction n with
  | zero => intro l hl; exact List.Pairwise.nil
  | succ n ih =>
      intro l hl
      cases hm : popMin l with
      | none => simp [popAll, hm]
      | some p =>
          cases p with
          | mk m rest =>
              have hperm := popMin_perm hm
              have hrest : n = rest.length := by
                have := hperm.length_eq
                simp at this
                omega
              simp only [popAll, hm]
              refine List.Pairwise.cons ?_ (ih rest hrest)
              intro b hb
              have hbrest : b ∈ rest := (popAll_perm n rest hrest).subset hb
              exact popMin_min hm b (popMin_rest_subset hm b hbrest)

theorem submit_nodeps (s : Sched) (t : Task) (hs : s.started = true)
    (hd : t.dependencies = []) :
    (TaskScheduler.submit s t).2.queue = s.queue ++ [(-t.priority, t.id)] ∧
      (TaskScheduler.submit s t).2.started = true := by
  simp [TaskScheduler.submit, pushPending, hd, hs]

theorem submitAll_queue (ts : List Task) : ∀ (s : Sched),
    s.started = true → (∀ t ∈ ts, t.dependencies = []) →
    (submitAll s ts).queue =
        s.queue ++ ts.map (fun t => (-t.priority, t.id)) ∧
      (submitAll s ts).started = true := by
  induction ts with
  | nil => intro s hs _; simp [submitAll, hs]
  | cons t ts ih =>
      intro s hs hd
      have h1 := submit_nodeps s t hs (hd t (List.mem_cons_self t ts))
      have h2 := ih (TaskScheduler.submit s t).2 h1.2
        (fun u hu => hd u (List.mem_cons_of_mem t hu))
      rw [submitAll]
      refine ⟨?_, h2.2⟩
      rw [h2.1, h1.1]
      simp

/-- A `≤`-sorted list with duplicate-free first components is strictly
sorted on the first components. -/
theorem sorted_strict_of_nodup_keys {l : List (Int × String)}
    (hs : l.Pairwise (fun a b => a.1 ≤ b.1))
    (hn : (l.map Prod.fst).Nodup) :
    l.Pairwise (fun a b => a.1 < b.1) := by
  have hne : l.Pairwise (fun a b => a.1 ≠ b.1) := by
    rw [List.Nodup, List.pairwise_map] at hn
    exact hn
  exact (hs.and hne).imp (fun h => lt_of_le_of_ne h.1 h.2)

/--
C4 (confirmed).  For dependency-free tasks with pairwise distinct
priorities, all submitted to a started single-worker scheduler before any
is popped, the pop (execution) order: (a) does not depend on the
submission order — any permutation of the submission list yields the same
sequence, (b) is sorted by ascending negated priority, i.e. by descending
`priority`, and (c) is a permutation of the submitted `(-priority, id)`
entries.  (The witness instantiates the spec's `[0, 1, 2] ↦ [2, 1, 0]`
example.)
-/
theorem C4_priority_order (ts1 ts2 : List Task)
    (hd : ∀ t ∈ ts1, t.dependencies = [])
    (hp : (ts1.map Task.priority).Nodup)
    (hperm : ts1.Perm ts2) :
    execOrder ts1 = execOrder ts2 ∧
      (execOrder ts1).Pairwise (fun a b => a.1 ≤ b.1) ∧
      (execOrder ts1).Perm (ts1.map (fun t => (-t.priority, t.id))) := by
  have hd2 : ∀ t ∈ ts2, t.dependencies = [] :=
    fun t ht => hd t (hperm.symm.subset ht)
  have hq1 := submitAll_queue ts1 (TaskScheduler.start (initSched 1)) rfl hd
  have hq2 := submitAll_queue ts2 (TaskScheduler.start (initSched 1)) rfl hd2
  have hq1' : (submitAll (TaskScheduler.start (initSched 1)) ts1).queue =
      ts1.map (fun t => (-t.priority, t.id)) := by
    rw [hq1.1]; rfl
  have hq2' : (submitAll (TaskScheduler.start (initSched 1)) ts2).queue =
      ts2.map (fun t => (-t.priority, t.id)) := by
    rw [hq2.1]; rfl
  have e1 : execOrder ts1 =
      popAll (ts1.map (fun t => (-t.priority, t.id))).length
        (ts1.map (fun t => (-t.priority, t.id))) := by
    unfold execOrder
    rw [hq1']
  have e2 : execOrder ts2 =
      popAll (ts2.map (fun t => (-t.priority, t.id))).length
        (ts2.map (fun t => (-t.priority, t.id))) := by
    unfold execOrder
    rw [hq2']
  have p1 : (execOrder ts1).Perm (ts1.map (fun t => (-t.priority, t.id))) := by
    rw [e1]
    exact popAll_perm _ _ rfl
  have p2 : (execOrder ts2).Perm (ts2.map (fun t => (-t.priority, t.id))) := by
    rw [e2]
    exact popAll_perm _ _ rfl
  have s1 : (execOrder ts1).Pairwise (fun a b => a.1 ≤ b.1) := by
    rw [e1]
    exact popAll_sorted _ _ rfl
  have s2 : (execOrder ts2).Pairwise (fun a b => a.1 ≤ b.1) := by
    rw [e2]
    exact popAll_sorted _ _ rfl
  have hkeys : ((ts1.map (fun t => (-t.priority, t.id))).map Prod.fst).Nodup := by
    have : (ts1.map (fun t => (-t.priority, t.id))).map Prod.fst =
        (ts1.map Task.priority).map Neg.neg := by
      simp [List.map_map, Function.comp]
    rw [this]
    exact hp.map neg_injective
  have hk1 : ((execOrder ts1).map Prod.fst).Nodup :=
    ((p1.map Prod.fst).nodup_iff).mpr hkeys
  have hk2 : ((execOrder ts2).map Prod.fst).Nodup := by
    refine ((p2.map Prod.fst).nodup_iff).mpr ?_
    refine (((hperm.map (fun t => (-t.priority, t.id))).map Prod.fst).nodup_iff).mp ?_
    exact hkeys
  have st1 := sorted_strict_of_nodup_keys s1 hk1
  have st2 := sorted_strict_of_nodup_keys s2 hk2
  have hpq : (execOrder ts1).Perm (execOrder ts2) :=
    (p1.trans (hperm.map (fun t => (-t.priority, t.id)))).trans p2.symm
  haveI : IsAntisymm (Int × String) (fun a b => a.1 < b.1) :=
    ⟨fun a b h1 h2 => absurd (lt_trans h1 h2) (lt_irrefl _)⟩
  exact ⟨List.eq_of_perm_of_sorted hpq st1 st2, s1, p1⟩

/-- A dependency-free task with the given id and priority (C4 witness
material). -/
def prioTask (i : String) (p : Int) : Task :=
  { id := i
    func := fun _ => Except.ok 0
    priority := p
    dependencies := []
    retry_policy := none
    status := TaskStatus.pending
    result := none
    error := none
    retry_count := 0
    scheduled_time := some 0
    started_time := none
    completed_time := none
    invocations := 0 }

/-- Witness for `C4_priority_order`: priorities `[0, 1, 2]` submitted in
two different orders both execute as `[2, 1, 0]`. -/
theorem C4_priority_order_witness :
    (execOrder [prioTask "a" 0, prioTask "b" 1, prioTask "c" 2] =
        execOrder
          (List.reverse [prioTask "a" 0, prioTask "b" 1, prioTask "c" 2]) ∧
      (execOrder [prioTask "a" 0, prioTask "b" 1, prioTask "c" 2]).Pairwise
        (fun a b => a.1 ≤ b.1) ∧
      (execOrder [prioTask "a" 0, prioTask "b" 1, prioTask "c" 2]).Perm
        ([prioTask "a" 0, prioTask "b" 1, prioTask "c" 2].map
          (fun t => (-t.priority, t.id)))) ∧
      execOrder [prioTask "a" 0, prioTask "b" 1, prioTask "c" 2] =
        [(-2, "c"), (-1, "b"), (0, "a")] :=
  ⟨C4_priority_order
      [prioTask "a" 0, prioTask "b" 1, prioTask "c" 2]
      (List.reverse [prioTask "a" 0, prioTask "b" 1, prioTask "c" 2])
      (by intro t ht; fin_cases ht <;> rfl)
      (by decide)
      (List.reverse_perm _).symm,
    by rfl⟩

/-! ### The scheduler bookkeeping invariant

`Inv` records where each task id may live and what its status must then
be.  Note what it does *not* say: an id may be in the running set and in
the ready queue at the same time — that is exactly the retry re-enqueue
situation (claim C5). -/

theorem lookupA_insertA {α : Type} (m : List (String × α)) (k k' : String)
    (v : α) :
    lookupA (insertA m k v) k' = if k' = k then some v else lookupA m k' := by
  by_cases h : k' = k
  · subst h
    simp [lookupA_insertA_self]
  · simp [h, lookupA_insertA_ne m k k' v h]

structure Inv (s : Sched) : Prop where
  completed_status : ∀ i ∈ s.completed,
    ∃ t, lookupA s.tasks i = some t ∧ t.status = TaskStatus.completed
  failed_status : ∀ i ∈ s.failed,
    ∃ t, lookupA s.tasks i = some t ∧ t.status = TaskStatus.failed
  running_status : ∀ i ∈ s.running,
    ∃ t, lookupA s.tasks i = some t ∧ t.status = TaskStatus.running
  running_deps : ∀ i t, lookupA s.tasks i = some t →
    t.status = TaskStatus.running →
    i ∈ s.running ∧ ∀ d ∈ t.dependencies, d ∈ s.completed
  queue_ok : ∀ e ∈ s.queue,
    ∃ t, lookupA s.tasks e.2 = some t ∧
      (t.status = TaskStatus.pending ∨ t.status = TaskStatus.running) ∧
      ∀ d ∈ t.dependencies, d ∈ s.completed
  worker_ok : ∀ w ph i, getW s.workers w = some ph → phaseId ph = some i →
    ∃ t, lookupA s.tasks i = some t ∧ t.status = TaskStatus.running
  error_failed : ∀ i t, lookupA s.tasks i = some t → t.error ≠ none →
    t.status = TaskStatus.failed
  waiting_status : ∀ d l, lookupA s.waiting_tasks d = some l → ∀ x ∈ l,
    ∃ t, lookupA s.tasks x = some t ∧ t.status = TaskStatus.waiting
  waiting_dep : ∀ d l, lookupA s.waiting_tasks d = some l → ∀ x ∈ l,
    ∃ t, lookupA s.tasks x = some t ∧ d ∈ t.dependencies
  waiting_key : ∀ d l, lookupA s.waiting_tasks d = some l → d ∉ s.completed
  waiting_nodup : ∀ d l, lookupA s.waiting_tasks d = some l → l.Nodup
  worker_queue : ∀ w ph i, getW s.workers w = some ph → phaseId ph = some i →
    ∀ e ∈ s.queue, e.2 ≠ i
  worker_uniq : ∀ w1 w2 ph1 ph2 i, getW s.workers w1 = some ph1 →
    getW s.workers w2 = some ph2 → phaseId ph1 = some i →
    phaseId ph2 = some i → w1 = w2
  queue_nodup : (s.queue.map Prod.snd).Nodup

/-- `Inv` only mentions the seven bookkeeping components, so it transports
along any state change that fixes them (clock ticks, flag flips, ...). -/
theorem inv_congr {s s' : Sched} (h : Inv s)
    (h1 : s'.tasks = s.tasks) (h2 : s'.running = s.running)
    (h3 : s'.completed = s.completed) (h4 : s'.failed = s.failed)
    (h5 : s'.queue = s.queue) (h6 : s'.waiting_tasks = s.waiting_tasks)
    (h7 : s'.workers = s.workers) : Inv s' := by
  constructor
  · rw [h1, h3]; exact h.completed_status
  · rw [h1, h4]; exact h.failed_status
  · rw [h1, h2]; exact h.running_status
  · rw [h1, h2, h3]; exact h.running_deps
  · rw [h1, h3, h5]; exact h.queue_ok
  · rw [h1, h7]; exact h.worker_ok
  · rw [h1]; exact h.error_failed
  · rw [h1, h6]; exact h.waiting_status
  · rw [h1, h6]; exact h.waiting_dep
  · rw [h3, h6]; exact h.waiting_key
  · rw [h6]; exact h.waiting_nodup
  · rw [h5, h7]; exact h.worker_queue
  · rw [h7]; exact h.worker_uniq
  · rw [h5]; exact h.queue_nodup

/-- An id unknown to the tasks map occurs nowhere in the bookkeeping. -/
theorem fresh_not_tracked {s : Sched} (h : Inv s) {i : String}
    (hf : lookupA s.tasks i = none) :
    i ∉ s.completed ∧ i ∉ s.failed ∧ i ∉ s.running ∧
      (∀ e ∈ s.queue, e.2 ≠ i) ∧
      (∀ w ph j, getW s.workers w = some ph → phaseId ph = some j → j ≠ i) ∧
      (∀ d l, lookupA s.waiting_tasks d = some l → i ∉ l) := by
  refine ⟨?_, ?_, ?_, ?_, ?_, ?_⟩
  · intro hi
    obtain ⟨t, ht, _⟩ := h.completed_status i hi
    rw [hf] at ht
    cases ht
  · intro hi
    obtain ⟨t, ht, _⟩ := h.failed_status i hi
    rw [hf] at ht
    cases ht
  · intro hi
    obtain ⟨t, ht, _⟩ := h.running_status i hi
    rw [hf] at ht
    cases ht
  · intro e he hc
    obtain ⟨t, ht, _⟩ := h.queue_ok e he
    rw [hc, hf] at ht
    cases ht
  · intro w ph j hw hp hc
    obtain ⟨t, ht, _⟩ := h.worker_ok w ph j hw hp
    rw [hc, hf] at ht
    cases ht
  · intro d l hd hx
    obtain ⟨t, ht, _⟩ := h.waiting_status d l hd i hx
    rw [hf] at ht
    cases ht

/-- Updating a task entry without touching its status, error or
dependencies preserves the invariant. -/
theorem inv_update_task {s : Sched} (h : Inv s) {i : String} {t t' : Task}
    (hl : lookupA s.tasks i = some t)
    (hst : t'.status = t.status) (herr : t'.error = t.error)
    (hdep : t'.dependencies = t.dependencies) :
    Inv { s with tasks := insertA s.tasks i t' } := by
  have key : ∀ (x : String),
      lookupA (insertA s.tasks i t') x =
        if x = i then some t' else lookupA s.tasks x :=
    fun x => lookupA_insertA s.tasks i x t'
  constructor
  · intro j hj
    obtain ⟨u, hu, hus⟩ := h.completed_status j hj
    by_cases hji : j = i
    · subst hji
      refine ⟨t', ?_, ?_⟩
      · rw [key, if_pos rfl]
      · rw [hu] at hl
        cases hl
        rw [hst, hus]
    · exact ⟨u, by rw [key, if_neg hji]; exact hu, hus⟩
  · intro j hj
    obtain ⟨u, hu, hus⟩ := h.failed_status j hj
    by_cases hji : j = i
    · subst hji
      refine ⟨t', ?_, ?_⟩
      · rw [key, if_pos rfl]
      · rw [hu] at hl
        cases hl
        rw [hst, hus]
    · exact ⟨u, by rw [key, if_neg hji]; exact hu, hus⟩
  · intro j hj
    obtain ⟨u, hu, hus⟩ := h.running_status j hj
    by_cases hji : j = i
    · subst hji
      refine ⟨t', ?_, ?_⟩
      · rw [key, if_pos rfl]
      · rw [hu] at hl
        cases hl
        rw [hst, hus]
    · exact ⟨u, by rw [key, if_neg hji]; exact hu, hus⟩
  · intro j u hu hus
    by_cases hji : j = i
    · subst hji
      rw [key, if_pos rfl] at hu
      cases hu
      rw [hst] at hus
      have := h.running_deps _ _ hl hus
      rw [hdep]
      exact this
    · rw [key, if_neg hji] at hu
      exact h.running_deps j u hu hus
  · intro e he
    obtain ⟨u, hu, hus, hud⟩ := h.queue_ok e he
    by_cases hji : e.2 = i
    · rw [hji, hl] at hu
      cases hu
      refine ⟨t', ?_, ?_, ?_⟩
      · rw [hji, key, if_pos rfl]
      · rw [hst]; exact hus
      · rw [hdep]; exact hud
    · exact ⟨u, by rw [key, if_neg hji]; exact hu, hus, hud⟩
  · intro w ph j hw hp
    obtain ⟨u, hu, hus⟩ := h.worker_ok w ph j hw hp
    by_cases hji : j = i
    · subst hji
      rw [hl] at hu
      cases hu
      refine ⟨t', ?_, ?_⟩
      · rw [key, if_pos rfl]
      · rw [hst]; exact hus
    · exact ⟨u, by rw [key, if_neg hji]; exact hu, hus⟩
  · intro j u hu hue
    by_cases hji : j = i
    · subst hji
      rw [key, if_pos rfl] at hu
      cases hu
      rw [herr] at hue
      rw [hst]
      exact h.error_failed _ _ hl hue
    · rw [key, if_neg hji] at hu
      exact h.error_failed j u hu hue
  · intro d l hd x hx
    obtain ⟨u, hu, hus⟩ := h.waiting_status d l hd x hx
    by_cases hji : x = i
    · subst hji
      rw [hl] at hu
      cases hu
      refine ⟨t', ?_, ?_⟩
      · rw [key, if_pos rfl]
      · rw [hst]; exact hus
    · exact ⟨u, by rw [key, if_neg hji]; exact hu, hus⟩
  · intro d l hd x hx
    obtain ⟨u, hu, hud⟩ := h.waiting_dep d l hd x hx
    by_cases hji : x = i
    · subst hji
      rw [hl] at hu
      cases hu
      refine ⟨t', ?_, ?_⟩
      · rw [key, if_pos rfl]
      · rw [hdep]; exact hud
    · exact ⟨u, by rw [key, if_neg hji]; exact hu, hud⟩
  · exact h.waiting_key
  · exact h.waiting_nodup
  · exact h.worker_queue
  · exact h.worker_uniq
  · exact h.queue_nodup

/-- `setCompletedNow` only rewrites one task's `completed_time` and ticks
the clock. -/
theorem inv_setCompletedNow {s : Sched} (h : Inv s) (tid : String) :
    Inv (setCompletedNow s tid) := by
  unfold setCompletedNow
  cases hl : lookupA s.tasks tid with
  | none =>
      simp only [hl]
      exact inv_congr h rfl rfl rfl rfl rfl rfl rfl
  | some task =>
      simp only [hl]
      have h1 : Inv { s with clock := s.clock + 1 } :=
        inv_congr h rfl rfl rfl rfl rfl rfl rfl
      exact inv_update_task h1 hl rfl rfl rfl

/-! ### Preservation: `start` and `stop` -/

theorem getW_append_right {l l' : List WorkerPhase} {n : Nat}
    (h : l.length ≤ n) : getW (l ++ l') n = getW l' (n - l.length) := by
  induction l generalizing n with
  | nil => simp [getW]
  | cons p l ih =>
      cases n with
      | zero => simp at h
      | succ n =>
          simp only [List.cons_append, getW, List.length_cons, List.append_eq]
          rw [ih (by simpa using h)]
          simp

theorem getW_take (l : List WorkerPhase) (k n : Nat) :
    getW (l.take k) n = if n < k then getW l n else none := by
  induction l generalizing k n with
  | nil => simp [getW]
  | cons p l ih =>
      cases k with
      | zero => simp [getW]
      | succ k =>
          cases n with
          | zero => simp [getW]
          | succ n =>
              simp only [List.take_succ_cons, getW, ih, Nat.succ_lt_succ_iff]

/-- A worker with a task in hand sits in the pre-existing part of an
extended pool of idle workers. -/
theorem getW_append_idle {l : List WorkerPhase} {n m : Nat}
    {ph : WorkerPhase} {i : String}
    (hw : getW (l ++ List.replicate m WorkerPhase.idle) n = some ph)
    (hp : phaseId ph = some i) : getW l n = some ph := by
  by_cases hn : n < l.length
  · rw [← getW_append_left hn]
    exact hw
  · rw [getW_append_right (Nat.le_of_not_lt hn)] at hw
    have := List.eq_of_mem_replicate (getW_mem hw)
    subst this
    simp [phaseId] at hp

theorem start_fields (s : Sched) :
    (TaskScheduler.start s).tasks = s.tasks ∧
      (TaskScheduler.start s).running = s.running ∧
      (TaskScheduler.start s).completed = s.completed ∧
      (TaskScheduler.start s).failed = s.failed ∧
      (TaskScheduler.start s).queue = s.queue ∧
      (TaskScheduler.start s).waiting_tasks = s.waiting_tasks ∧
      (TaskScheduler.start s).workers =
        s.workers ++ List.replicate s.max_workers WorkerPhase.idle := by
  unfold TaskScheduler.start
  by_cases hst : s.started <;> simp [hst]

theorem inv_start {s : Sched} (h : Inv s) : Inv (TaskScheduler.start s) := by
  obtain ⟨h1, h2, h3, h4, h5, h6, h7⟩ := start_fields s
  constructor
  · rw [h1, h3]; exact h.completed_status
  · rw [h1, h4]; exact h.failed_status
  · rw [h1, h2]; exact h.running_status
  · rw [h1, h2, h3]; exact h.running_deps
  · rw [h1, h3, h5]; exact h.queue_ok
  · rw [h1, h7]
    intro w ph i hw hp
    exact h.worker_ok w ph i (getW_append_idle hw hp) hp
  · rw [h1]; exact h.error_failed
  · rw [h1, h6]; exact h.waiting_status
  · rw [h1, h6]; exact h.waiting_dep
  · rw [h3, h6]; exact h.waiting_key
  · rw [h6]; exact h.waiting_nodup
  · rw [h5, h7]
    intro w ph i hw hp
    exact h.worker_queue w ph i (getW_append_idle hw hp) hp
  · rw [h7]
    intro w1 w2 ph1 ph2 i hw1 hw2 hp1 hp2
    exact h.worker_uniq w1 w2 ph1 ph2 i (getW_append_idle hw1 hp1)
      (getW_append_idle hw2 hp2) hp1 hp2
  · rw [h5]; exact h.queue_nodup

theorem inv_stop {s : Sched} (h : Inv s) : Inv (TaskScheduler.stop s) := by
  have hget : ∀ (n : Nat) (ph : WorkerPhase),
      getW (TaskScheduler.stop s).workers n = some ph →
        getW s.workers n = some ph := by
    intro n ph hw
    unfold TaskScheduler.stop at hw
    simp only at hw
    rw [getW_take] at hw
    by_cases hn : n < s.workers.length - s.tracked
    · rwa [if_pos hn] at hw
    · rw [if_neg hn] at hw
      cases hw
  constructor
  · exact h.completed_status
  · exact h.failed_status
  · exact h.running_status
  · exact h.running_deps
  · exact h.queue_ok
  · intro w ph i hw hp
    exact h.worker_ok w ph i (hget w ph hw) hp
  · exact h.error_failed
  · exact h.waiting_status
  · exact h.waiting_dep
  · exact h.waiting_key
  · exact h.waiting_nodup
  · intro w ph i hw hp
    exact h.worker_queue w ph i (hget w ph hw) hp
  · intro w1 w2 ph1 ph2 i hw1 hw2 hp1 hp2
    exact h.worker_uniq w1 w2 ph1 ph2 i (hget w1 ph1 hw1) (hget w2 ph2 hw2)
      hp1 hp2
  · exact h.queue_nodup

/-! ### Preservation: `submit` -/

theorem registerWaiting_lookup (w : List (String × List String))
    (dep tid d : String) :
    lookupA (registerWaiting w dep tid) d =
      if d = dep then
        some (match lookupA w dep with
          | none => [tid]
          | some l => addS l tid)
      else lookupA w d := by
  unfold registerWaiting
  cases hl : lookupA w dep with
  | none => simp [lookupA_insertA, hl]
  | some l => simp [lookupA_insertA, hl]

theorem nodup_append_singleton {l : List String} {x : String} (h : l.Nodup)
    (hx : x ∉ l) : (l ++ [x]).Nodup := by
  rw [List.nodup_append]
  refine ⟨h, List.nodup_singleton x, ?_⟩
  intro a ha hax
  simp at hax
  subst hax
  exact hx ha

theorem nodup_addS {l : List String} (h : l.Nodup) (x : String) :
    (addS l x).Nodup := by
  unfold addS
  by_cases hm : memS l x
  · simp [hm, h]
  · have hx : x ∉ l := fun hc => hm ((memS_iff l x).mpr hc)
    simp only [hm, if_false, Bool.false_eq_true]
    exact nodup_append_singleton h hx

theorem registerFold_mem (tid : String) : ∀ (ds : List String)
    (w : List (String × List String)) (d : String) (l : List String)
    (x : String), lookupA (registerFold w tid ds) d = some l → x ∈ l →
    (x = tid ∧ d ∈ ds) ∨ ∃ l0, lookupA w d = some l0 ∧ x ∈ l0 := by
  intro ds
  induction ds with
  | nil =>
      intro w d l x hl hx
      right
      exact ⟨l, hl, hx⟩
  | cons d0 ds ih =>
      intro w d l x hl hx
      rcases ih (registerWaiting w d0 tid) d l x hl hx with
        ⟨rfl, hd⟩ | ⟨l0, hl0, hx0⟩
      · left
        exact ⟨rfl, List.mem_cons_of_mem d0 hd⟩
      · rw [registerWaiting_lookup] at hl0
        by_cases hdd : d = d0
        · rw [if_pos hdd] at hl0
          cases hl0
          cases hw : lookupA w d0 with
          | none =>
              rw [hw] at hx0
              simp at hx0
              subst hx0
              left
              exact ⟨rfl, by rw [hdd]; exact List.mem_cons_self d0 ds⟩
          | some l1 =>
              rw [hw] at hx0
              rcases mem_addS.mp hx0 with hx1 | rfl
              · right
                exact ⟨l1, by rw [hdd]; exact hw, hx1⟩
              · left
                exact ⟨rfl, by rw [hdd]; exact List.mem_cons_self d0 ds⟩
        · rw [if_neg hdd] at hl0
          right
          exact ⟨l0, hl0, hx0⟩

theorem registerFold_keys (tid : String) : ∀ (ds : List String)
    (w : List (String × List String)) (d : String) (l : List String),
    lookupA (registerFold w tid ds) d = some l →
    d ∈ ds ∨ ∃ l0, lookupA w d = some l0 := by
  intro ds
  induction ds with
  | nil =>
      intro w d l hl
      right
      exact ⟨l, hl⟩
  | cons d0 ds ih =>
      intro w d l hl
      rcases ih (registerWaiting w d0 tid) d l hl with hd | ⟨l0, hl0⟩
      · left
        exact List.mem_cons_of_mem d0 hd
      · rw [registerWaiting_lookup] at hl0
        by_cases hdd : d = d0
        · left
          rw [hdd]
          exact List.mem_cons_self d0 ds
        · rw [if_neg hdd] at hl0
          right
          exact ⟨l0, hl0⟩

theorem registerFold_nodup (tid : String) : ∀ (ds : List String)
    (w : List (String × List String)),
    (∀ d l, lookupA w d = some l → l.Nodup) →
    ∀ d l, lookupA (registerFold w tid ds) d = some l → l.Nodup := by
  intro ds
  induction ds with
  | nil =>
      intro w hw d l hl
      exact hw d l hl
  | cons d0 ds ih =>
      intro w hw d l hl
      refine ih (registerWaiting w d0 tid) ?_ d l hl
      intro d1 l1 hl1
      rw [registerWaiting_lookup] at hl1
      by_cases hdd : d1 = d0
      · rw [if_pos hdd] at hl1
        cases hl1
        cases hw0 : lookupA w d0 with
        | none => simp [hw0]
        | some l2 =>
            simp only [hw0]
            exact nodup_addS (hw d0 l2 hw0) tid
      · rw [if_neg hdd] at hl1
        exact hw d1 l1 hl1

theorem mem_unsatisfied {deps comp : List String} {d : String}
    (h : d ∈ deps.filter (fun x => !(memS comp x))) :
    d ∈ deps ∧ d ∉ comp := by
  obtain ⟨hd, hp⟩ := List.mem_filter.mp h
  refine ⟨hd, fun hc => ?_⟩
  rw [Bool.not_eq_eq_eq_not] at hp
  simp at hp
  exact absurd ((memS_iff comp d).mpr hc) (by simp [hp])

/-- Inserting a fresh task that is PENDING or WAITING with no error. -/
theorem inv_insert_fresh {s : Sched} (h : Inv s) {i : String} {u : Task}
    (hf : lookupA s.tasks i = none)
    (hst : u.status = TaskStatus.pending ∨ u.status = TaskStatus.waiting)
    (herr : u.error = none) :
    Inv { s with tasks := insertA s.tasks i u } := by
  obtain ⟨hnc, hnf, hnr, hnq, hnw, hnreg⟩ := fresh_not_tracked h hf
  have key : ∀ (x : String),
      lookupA (insertA s.tasks i u) x =
        if x = i then some u else lookupA s.tasks x :=
    fun x => lookupA_insertA s.tasks i x u
  have keep : ∀ (x : String), x ≠ i →
      lookupA (insertA s.tasks i u) x = lookupA s.tasks x := by
    intro x hx
    rw [key, if_neg hx]
  constructor
  · intro j hj
    obtain ⟨v, hv, hvs⟩ := h.completed_status j hj
    exact ⟨v, by rw [keep j (fun hc => hnc (hc ▸ hj))]; exact hv, hvs⟩
  · intro j hj
    obtain ⟨v, hv, hvs⟩ := h.failed_status j hj
    exact ⟨v, by rw [keep j (fun hc => hnf (hc ▸ hj))]; exact hv, hvs⟩
  · intro j hj
    obtain ⟨v, hv, hvs⟩ := h.running_status j hj
    exact ⟨v, by rw [keep j (fun hc => hnr (hc ▸ hj))]; exact hv, hvs⟩
  · intro j v hv hvs
    by_cases hji : j = i
    · subst hji
      rw [key, if_pos rfl] at hv
      cases hv
      rcases hst with hst | hst <;> rw [hst] at hvs <;> cases hvs
    · rw [keep j hji] at hv
      exact h.running_deps j v hv hvs
  · intro e he
    obtain ⟨v, hv, hvs, hvd⟩ := h.queue_ok e he
    exact ⟨v, by rw [keep e.2 (hnq e he)]; exact hv, hvs, hvd⟩
  · intro w ph j hw hp
    obtain ⟨v, hv, hvs⟩ := h.worker_ok w ph j hw hp
    exact ⟨v, by rw [keep j (hnw w ph j hw hp)]; exact hv, hvs⟩
  · intro j v hv hve
    by_cases hji : j = i
    · subst hji
      rw [key, if_pos rfl] at hv
      cases hv
      exact absurd herr hve
    · rw [keep j hji] at hv
      exact h.error_failed j v hv hve
  · intro d l hd x hx
    obtain ⟨v, hv, hvs⟩ := h.waiting_status d l hd x hx
    refine ⟨v, ?_, hvs⟩
    rw [keep x (fun hc => hnreg d l hd (hc ▸ hx))]
    exact hv
  · intro d l hd x hx
    obtain ⟨v, hv, hvd⟩ := h.waiting_dep d l hd x hx
    refine ⟨v, ?_, hvd⟩
    rw [keep x (fun hc => hnreg d l hd (hc ▸ hx))]
    exact hv
  · exact h.waiting_key
  · exact h.waiting_nodup
  · exact h.worker_queue
  · exact h.worker_uniq
  · exact h.queue_nodup

/-- Enqueueing an entry for a task whose dependencies are all completed,
that is PENDING or RUNNING, is not yet in the queue and is held by no
worker. -/
theorem inv_enqueue {s : Sched} (h : Inv s) {i : String} {u : Task}
    (hl : lookupA s.tasks i = some u)
    (hst : u.status = TaskStatus.pending ∨ u.status = TaskStatus.running)
    (hdeps : ∀ d ∈ u.dependencies, d ∈ s.completed)
    (hq : ∀ e ∈ s.queue, e.2 ≠ i)
    (hw : ∀ w ph j, getW s.workers w = some ph → phaseId ph = some j →
      j ≠ i) (p : Int) :
    Inv { s with queue := s.queue ++ [(p, i)] } := by
  constructor
  · exact h.completed_status
  · exact h.failed_status
  · exact h.running_status
  · exact h.running_deps
  · intro e he
    rcases List.mem_append.mp he with he | he
    · exact h.queue_ok e he
    · simp at he
      subst he
      exact ⟨u, hl, hst, hdeps⟩
  · exact h.worker_ok
  · exact h.error_failed
  · exact h.waiting_status
  · exact h.waiting_dep
  · exact h.waiting_key
  · exact h.waiting_nodup
  · intro w ph j hwj hp e he
    rcases List.mem_append.mp he with he | he
    · exact h.worker_queue w ph j hwj hp e he
    · simp at he
      subst he
      intro hc
      exact (hw w ph j hwj hp) hc.symm
  · exact h.worker_uniq
  · rw [List.map_append]
    exact nodup_append_singleton h.queue_nodup
      (by
        intro hc
        obtain ⟨e, he, he2⟩ := List.mem_map.mp hc
        exact hq e he he2)

theorem insertA_insertA {α : Type} (m : List (String × α)) (k : String)
    (v v' : α) : insertA (insertA m k v) k v' = insertA m k v' := by
  unfold insertA
  rw [List.filter_append, List.filter_filter]
  simp

theorem inv_submit {s : Sched} {t : Task} (h : Inv s)
    (hfresh : freshTask s t) : Inv (TaskScheduler.submit s t).2 := by
  obtain ⟨hf, hpend, hres, herr, hrc, hstt, hct, hinvc⟩ := hfresh
  obtain ⟨hnc, hnf, hnr, hnq, hnw, hnreg⟩ := fresh_not_tracked h hf
  have h1 : Inv { s with tasks := insertA s.tasks t.id t } :=
    inv_insert_fresh h hf (Or.inl hpend) herr
  have henq : (∀ d ∈ t.dependencies, d ∈ s.completed) →
      Inv (pushPending { s with tasks := insertA s.tasks t.id t } t).2 := by
    intro hdeps
    by_cases hst : s.started = true
    · have heq : (pushPending { s with tasks := insertA s.tasks t.id t } t).2 =
          { s with tasks := insertA s.tasks t.id t,
                   queue := s.queue ++ [(-t.priority, t.id)] } := by
        simp [pushPending, hst]
      rw [heq]
      exact inv_enqueue h1 (lookupA_insertA_self s.tasks t.id t)
        (Or.inl hpend) hdeps hnq hnw (-t.priority)
    · have hst2 : s.started = false := by rwa [Bool.not_eq_true] at hst
      have heq : (pushPending { s with tasks := insertA s.tasks t.id t } t).2 =
          { s with tasks := insertA s.tasks t.id t } := by
        simp [pushPending, hst2]
      rw [heq]
      exact h1
  by_cases hde : t.dependencies.isEmpty = true
  · have heq : (TaskScheduler.submit s t).2 =
        (pushPending { s with tasks := insertA s.tasks t.id t } t).2 := by
      simp only [TaskScheduler.submit, hde, if_true]
    rw [heq]
    refine henq ?_
    rw [List.isEmpty_iff] at hde
    rw [hde]
    intro d hd
    cases hd
  · have hde2 : t.dependencies.isEmpty = false := by
      rwa [Bool.not_eq_true] at hde
    by_cases hu : (t.dependencies.filter
        (fun d => !(memS s.completed d))).isEmpty = true
    · have heq : (TaskScheduler.submit s t).2 =
          (pushPending { s with tasks := insertA s.tasks t.id t } t).2 := by
        simp only [TaskScheduler.submit, hde2, Bool.false_eq_true, if_false,
          hu, if_true]
      rw [heq]
      refine henq ?_
      rw [List.isEmpty_iff] at hu
      intro d hd
      by_cases hdc : d ∈ s.completed
      · exact hdc
      · exfalso
        have hmem : d ∈ t.dependencies.filter
            (fun x => !(memS s.completed x)) := by
          rw [List.mem_filter]
          refine ⟨hd, ?_⟩
          simp only [Bool.not_eq_eq_eq_not, Bool.not_true]
          cases hm : memS s.completed d
          · rfl
          · exact absurd ((memS_iff s.completed d).mp hm) hdc
        rw [hu] at hmem
        cases hmem
    · have hu2 : (t.dependencies.filter
          (fun d => !(memS s.completed d))).isEmpty = false := by
        rwa [Bool.not_eq_true] at hu
      have heq : (TaskScheduler.submit s t).2 =
          { s with
              tasks := insertA (insertA s.tasks t.id t) t.id
                { t with status := TaskStatus.waiting }
              waiting_tasks := registerFold s.waiting_tasks t.id
                (t.dependencies.filter (fun d => !(memS s.completed d))) } := by
        simp only [TaskScheduler.submit, hde2, Bool.false_eq_true, if_false,
          hu2]
      rw [heq]
      have h2 : Inv { s with
          tasks := insertA s.tasks t.id
            { t with status := TaskStatus.waiting } } :=
        inv_insert_fresh h hf (Or.inr rfl) herr
      have hrw : insertA (insertA s.tasks t.id t) t.id
          { t with status := TaskStatus.waiting } =
          insertA s.tasks t.id { t with status := TaskStatus.waiting } :=
        insertA_insertA s.tasks t.id t _
      rw [hrw]
      constructor
      · exact h2.completed_status
      · exact h2.failed_status
      · exact h2.running_status
      · exact h2.running_deps
      · exact h2.queue_ok
      · exact h2.worker_ok
      · exact h2.error_failed
      · intro d l hd x hx
        rcases registerFold_mem t.id _ _ _ _ _ hd hx with
          ⟨rfl, _⟩ | ⟨l0, hl0, hx0⟩
        · refine ⟨{ t with status := TaskStatus.waiting }, ?_, rfl⟩
          exact lookupA_insertA_self s.tasks t.id _
        · exact h2.waiting_status d l0 hl0 x hx0
      · intro d l hd x hx
        rcases registerFold_mem t.id _ _ _ _ _ hd hx with
          ⟨rfl, hds⟩ | ⟨l0, hl0, hx0⟩
        · refine ⟨{ t with status := TaskStatus.waiting }, ?_, ?_⟩
          · exact lookupA_insertA_self s.tasks t.id _
          · exact (mem_unsatisfied hds).1
        · exact h2.waiting_dep d l0 hl0 x hx0
      · intro d l hd
        rcases registerFold_keys t.id _ _ _ _ hd with hds | ⟨l0, hl0⟩
        · exact (mem_unsatisfied hds).2
        · exact h2.waiting_key d l0 hl0
      · intro d l hd
        exact registerFold_nodup t.id _ _
          (fun d0 l0 hl0 => h2.waiting_nodup d0 l0 hl0) d l hd
      · exact h2.worker_queue
      · exact h2.worker_uniq
      · exact h2.queue_nodup

/-! ### Preservation: popping a task (`startExec`) -/

theorem inv_pop {s s' : Sched} {w : Nat} (h : Inv s)
    (hs : startExec s w = some s') : Inv s' := by
  unfold startExec at hs
  cases hgw : getW s.workers w with
  | none => rw [hgw] at hs; cases hs
  | some ph =>
      rw [hgw] at hs
      cases ph with
      | executing tid => cases hs
      | retryWait tid => cases hs
      | idle =>
          cases hse : s.stop_event with
          | true => rw [hse] at hs; simp at hs
          | false =>
              rw [hse] at hs
              simp only [Bool.false_eq_true, if_false] at hs
              cases hpm : popMin s.queue with
              | none => rw [hpm] at hs; cases hs
              | some pr =>
                  rw [hpm] at hs
                  obtain ⟨e, rest⟩ := pr
                  cases hlk : lookupA s.tasks e.2 with
                  | none =>
                      simp only [hlk] at hs
                      cases hs
                  | some task =>
                      simp only [hlk] at hs
                      rw [Option.some_inj] at hs
                      subst hs
                      -- collected facts about the popped entry
                      have hmem : e ∈ s.queue := popMin_mem hpm
                      obtain ⟨task0, hl0, hstat, hdeps⟩ := h.queue_ok e hmem
                      rw [hlk] at hl0
                      cases hl0
                      have hrest_sub := popMin_rest_subset hpm
                      have hpermm :
                          (s.queue.map Prod.snd).Perm
                            (e.2 :: rest.map Prod.snd) :=
                        (popMin_perm hpm).map Prod.snd
                      have hnodup2 := hpermm.nodup_iff.mp h.queue_nodup
                      rw [List.nodup_cons] at hnodup2
                      obtain ⟨hennot, hrestnodup⟩ := hnodup2
                      have hntc : e.2 ∉ s.completed := by
                        intro hc
                        obtain ⟨u, hu, hus⟩ := h.completed_status _ hc
                        rw [hlk] at hu
                        cases hu
                        rcases hstat with h' | h' <;> rw [h'] at hus <;>
                          cases hus
                      have hntf : e.2 ∉ s.failed := by
                        intro hc
                        obtain ⟨u, hu, hus⟩ := h.failed_status _ hc
                        rw [hlk] at hu
                        cases hu
                        rcases hstat with h' | h' <;> rw [h'] at hus <;>
                          cases hus
                      have hnreg : ∀ d l, lookupA s.waiting_tasks d = some l →
                          e.2 ∉ l := by
                        intro d l hd hx
                        obtain ⟨u, hu, hus⟩ := h.waiting_status d l hd _ hx
                        rw [hlk] at hu
                        cases hu
                        rcases hstat with h' | h' <;> rw [h'] at hus <;>
                          cases hus
                      have hnow : ∀ w2 ph2 j, getW s.workers w2 = some ph2 →
                          phaseId ph2 = some j → j ≠ e.2 := by
                        intro w2 ph2 j hw2 hp2 hc
                        subst hc
                        exact (h.worker_queue w2 ph2 e.2 hw2 hp2 e hmem) rfl
                      have herr0 : task.error = none := by
                        cases he : task.error with
                        | none => rfl
                        | some er =>
                            have := h.error_failed _ _ hlk (by rw [he]; simp)
                            rcases hstat with h' | h' <;> rw [h'] at this <;>
                              cases this
                      have key : ∀ (x : String),
                          lookupA (insertA s.tasks e.2 { task with started_time := some s.clock, status := TaskStatus.running }) x =
                            if x = e.2 then some { task with started_time := some s.clock, status := TaskStatus.running }
                            else lookupA s.tasks x :=
                        fun x => lookupA_insertA s.tasks e.2 x _
                      constructor
                      · intro j hj
                        obtain ⟨u, hu, hus⟩ := h.completed_status j hj
                        have hji : j ≠ e.2 := fun hc => hntc (hc ▸ hj)
                        exact ⟨u, by rw [key, if_neg hji]; exact hu, hus⟩
                      · intro j hj
                        obtain ⟨u, hu, hus⟩ := h.failed_status j hj
                        have hji : j ≠ e.2 := fun hc => hntf (hc ▸ hj)
                        exact ⟨u, by rw [key, if_neg hji]; exact hu, hus⟩
                      · intro j hj
                        by_cases hji : j = e.2
                        · subst hji
                          exact ⟨_, by rw [key, if_pos rfl], rfl⟩
                        · rcases mem_addS.mp hj with hj0 | hj0
                          · obtain ⟨u, hu, hus⟩ := h.running_status j hj0
                            exact ⟨u, by rw [key, if_neg hji]; exact hu, hus⟩
                          · exact absurd hj0 hji
                      · intro j v hv hvs
                        by_cases hji : j = e.2
                        · subst hji
                          rw [key, if_pos rfl] at hv
                          cases hv
                          refine ⟨mem_addS.mpr (Or.inr rfl), ?_⟩
                          intro d hd
                          exact hdeps d hd
                        · rw [key, if_neg hji] at hv
                          obtain ⟨hr, hd⟩ := h.running_deps j v hv hvs
                          exact ⟨mem_addS.mpr (Or.inl hr), hd⟩
                      · intro e2 he2
                        have he2q : e2 ∈ s.queue := hrest_sub e2 he2
                        obtain ⟨u, hu, hus, hud⟩ := h.queue_ok e2 he2q
                        have hji : e2.2 ≠ e.2 := by
                          intro hc
                          exact hennot (hc ▸ List.mem_map_of_mem Prod.snd he2)
                        exact ⟨u, by rw [key, if_neg hji]; exact hu, hus, hud⟩
                      · intro w2 ph2 j hw2 hp2
                        by_cases hww : w2 = w
                        · subst hww
                          rw [getW_setW_self (by rw [hgw]; rfl)] at hw2
                          cases hw2
                          simp [phaseId] at hp2
                          subst hp2
                          exact ⟨_, by rw [key, if_pos rfl], rfl⟩
                        · rw [getW_setW_ne s.workers w w2 _ hww] at hw2
                          obtain ⟨u, hu, hus⟩ := h.worker_ok w2 ph2 j hw2 hp2
                          have hji : j ≠ e.2 := hnow w2 ph2 j hw2 hp2
                          exact ⟨u, by rw [key, if_neg hji]; exact hu, hus⟩
                      · intro j v hv hve
                        by_cases hji : j = e.2
                        · subst hji
                          rw [key, if_pos rfl] at hv
                          cases hv
                          simp [herr0] at hve
                        · rw [key, if_neg hji] at hv
                          exact h.error_failed j v hv hve
                      · intro d l hd x hx
                        obtain ⟨u, hu, hus⟩ := h.waiting_status d l hd x hx
                        have hji : x ≠ e.2 := fun hc => hnreg d l hd (hc ▸ hx)
                        exact ⟨u, by rw [key, if_neg hji]; exact hu, hus⟩
                      · intro d l hd x hx
                        obtain ⟨u, hu, hud⟩ := h.waiting_dep d l hd x hx
                        have hji : x ≠ e.2 := fun hc => hnreg d l hd (hc ▸ hx)
                        exact ⟨u, by rw [key, if_neg hji]; exact hu, hud⟩
                      · exact h.waiting_key
                      · exact h.waiting_nodup
                      · intro w2 ph2 j hw2 hp2 e2 he2
                        by_cases hww : w2 = w
                        · subst hww
                          rw [getW_setW_self (by rw [hgw]; rfl)] at hw2
                          cases hw2
                          simp [phaseId] at hp2
                          subst hp2
                          intro hc
                          exact hennot (hc ▸ List.mem_map_of_mem Prod.snd he2)
                        · rw [getW_setW_ne s.workers w w2 _ hww] at hw2
                          exact h.worker_queue w2 ph2 j hw2 hp2 e2
                            (hrest_sub e2 he2)
                      · intro w1 w2 ph1 ph2 j hw1 hw2 hp1 hp2
                        by_cases hw1w : w1 = w <;> by_cases hw2w : w2 = w
                        · rw [hw1w, hw2w]
                        · rw [hw1w] at hw1
                          rw [getW_setW_self (by rw [hgw]; rfl)] at hw1
                          cases hw1
                          simp [phaseId] at hp1
                          subst hp1
                          rw [getW_setW_ne s.workers w w2 _ hw2w] at hw2
                          exact absurd rfl (hnow w2 ph2 e.2 hw2 hp2)
                        · rw [hw2w] at hw2
                          rw [getW_setW_self (by rw [hgw]; rfl)] at hw2
                          cases hw2
                          simp [phaseId] at hp2
                          subst hp2
                          rw [getW_setW_ne s.workers w w1 _ hw1w] at hw1
                          exact absurd rfl (hnow w1 ph1 e.2 hw1 hp1)
                        · rw [getW_setW_ne s.workers w w1 _ hw1w] at hw1
                          rw [getW_setW_ne s.workers w w2 _ hw2w] at hw2
                          exact h.worker_uniq w1 w2 ph1 ph2 j hw1 hw2 hp1 hp2
                      · exact hrestnodup

/-! ### Preservation: worker phase changes -/

theorem getW_setW_none {l : List WorkerPhase} {n : Nat} {a : WorkerPhase}
    (h : getW l n = none) : getW (setW l n a) n = none := by
  induction l generalizing n with
  | nil => simp [setW, getW]
  | cons p l ih =>
      cases n with
      | zero => simp [getW] at h
      | succ n =>
          simp only [getW, setW] at h ⊢
          exact ih h

/-- Idling one worker can only discard obligations. -/
theorem inv_worker_idle {s : Sched} (h : Inv s) (w : Nat) :
    Inv { s with workers := setW s.workers w WorkerPhase.idle } := by
  have hget : ∀ w2 ph2 j, getW (setW s.workers w WorkerPhase.idle) w2 = some ph2 →
      phaseId ph2 = some j → getW s.workers w2 = some ph2 := by
    intro w2 ph2 j hw2 hp2
    by_cases hww : w2 = w
    · subst hww
      cases hg : getW s.workers w2 with
      | none => rw [getW_setW_none hg] at hw2; cases hw2
      | some ph0 =>
          rw [getW_setW_self (by rw [hg]; rfl)] at hw2
          cases hw2
          simp [phaseId] at hp2
    · rwa [getW_setW_ne s.workers w w2 _ hww] at hw2
  constructor
  · exact h.completed_status
  · exact h.failed_status
  · exact h.running_status
  · exact h.running_deps
  · exact h.queue_ok
  · intro w2 ph2 j hw2 hp2
    exact h.worker_ok w2 ph2 j (hget w2 ph2 j hw2 hp2) hp2
  · exact h.error_failed
  · exact h.waiting_status
  · exact h.waiting_dep
  · exact h.waiting_key
  · exact h.waiting_nodup
  · intro w2 ph2 j hw2 hp2
    exact h.worker_queue w2 ph2 j (hget w2 ph2 j hw2 hp2) hp2
  · intro w1 w2 ph1 ph2 j hw1 hw2 hp1 hp2
    exact h.worker_uniq w1 w2 ph1 ph2 j (hget w1 ph1 j hw1 hp1)
      (hget w2 ph2 j hw2 hp2) hp1 hp2
  · exact h.queue_nodup

/-- Swapping one worker's phase for another phase with the same held task
(here: `executing tid` to `retryWait tid`). -/
theorem inv_setW_samePhase {s : Sched} (h : Inv s) {w : Nat}
    {ph : WorkerPhase} (ph' : WorkerPhase)
    (hg : getW s.workers w = some ph)
    (hid : phaseId ph' = phaseId ph) :
    Inv { s with workers := setW s.workers w ph' } := by
  have hget : ∀ w2 ph2 j, getW (setW s.workers w ph') w2 = some ph2 →
      phaseId ph2 = some j →
      ∃ ph3, getW s.workers w2 = some ph3 ∧ phaseId ph3 = some j := by
    intro w2 ph2 j hw2 hp2
    by_cases hww : w2 = w
    · subst hww
      rw [getW_setW_self (by rw [hg]; rfl)] at hw2
      cases hw2
      exact ⟨ph, hg, by rw [← hid]; exact hp2⟩
    · rw [getW_setW_ne s.workers w w2 _ hww] at hw2
      exact ⟨ph2, hw2, hp2⟩
  constructor
  · exact h.completed_status
  · exact h.failed_status
  · exact h.running_status
  · exact h.running_deps
  · exact h.queue_ok
  · intro w2 ph2 j hw2 hp2
    obtain ⟨ph3, hg3, hp3⟩ := hget w2 ph2 j hw2 hp2
    exact h.worker_ok w2 ph3 j hg3 hp3
  · exact h.error_failed
  · exact h.waiting_status
  · exact h.waiting_dep
  · exact h.waiting_key
  · exact h.waiting_nodup
  · intro w2 ph2 j hw2 hp2
    obtain ⟨ph3, hg3, hp3⟩ := hget w2 ph2 j hw2 hp2
    exact h.worker_queue w2 ph3 j hg3 hp3
  · intro w1 w2 ph1 ph2 j hw1 hw2 hp1 hp2
    obtain ⟨ph3, hg3, hp3⟩ := hget w1 ph1 j hw1 hp1
    obtain ⟨ph4, hg4, hp4⟩ := hget w2 ph2 j hw2 hp2
    exact h.worker_uniq w1 w2 ph3 ph4 j hg3 hg4 hp3 hp4
  · exact h.queue_nodup

/-! ### Preservation: dependency release -/

theorem releaseOne_lookup_ne {s : Sched} {x y : String} (hyx : y ≠ x) :
    lookupA (releaseOne s x).tasks y = lookupA s.tasks y := by
  unfold releaseOne
  cases h : lookupA s.tasks x with
  | none => rfl
  | some task =>
      by_cases hc : task.dependencies.all (fun d => memS s.completed d)
      · simp only [hc, if_true]
        exact lookupA_insertA_ne s.tasks x y _ hyx
      · simp only [hc, Bool.false_eq_true, if_false]

/-- Releasing one id that is currently WAITING preserves the invariant. -/
theorem inv_releaseOne {u : Sched} (h : Inv u) {x : String} {tx : Task}
    (hlx : lookupA u.tasks x = some tx)
    (hwx : tx.status = TaskStatus.waiting) : Inv (releaseOne u x) := by
  have hxc : x ∉ u.completed := by
    intro hc
    obtain ⟨v, hv, hvs⟩ := h.completed_status x hc
    rw [hlx] at hv
    cases hv
    rw [hwx] at hvs
    cases hvs
  have hxf : x ∉ u.failed := by
    intro hc
    obtain ⟨v, hv, hvs⟩ := h.failed_status x hc
    rw [hlx] at hv
    cases hv
    rw [hwx] at hvs
    cases hvs
  have hxr : x ∉ u.running := by
    intro hc
    obtain ⟨v, hv, hvs⟩ := h.running_status x hc
    rw [hlx] at hv
    cases hv
    rw [hwx] at hvs
    cases hvs
  have hxq : ∀ e ∈ u.queue, e.2 ≠ x := by
    intro e he hc
    obtain ⟨v, hv, hvs, _⟩ := h.queue_ok e he
    rw [hc, hlx] at hv
    cases hv
    rcases hvs with h' | h' <;> rw [hwx] at h' <;> cases h'
  have hxw : ∀ w2 ph2 j, getW u.workers w2 = some ph2 →
      phaseId ph2 = some j → j ≠ x := by
    intro w2 ph2 j hw2 hp2 hc
    obtain ⟨v, hv, hvs⟩ := h.worker_ok w2 ph2 j hw2 hp2
    rw [hc, hlx] at hv
    cases hv
    rw [hwx] at hvs
    cases hvs
  have hxe : tx.error = none := by
    cases he : tx.error with
    | none => rfl
    | some er =>
        have := h.error_failed x tx hlx (by rw [he]; simp)
        rw [hwx] at this
        cases this
  unfold releaseOne
  simp only [hlx]
  by_cases hall : tx.dependencies.all (fun d => memS u.completed d)
  · rw [if_pos hall]
    have hdeps : ∀ d ∈ tx.dependencies, d ∈ u.completed := by
      intro d hd
      have := List.all_eq_true.mp hall d hd
      exact (memS_iff u.completed d).mp (by simpa using this)
    have hxreg : ∀ d l, lookupA u.waiting_tasks d = some l → x ∉ l := by
      intro d l hd hx
      obtain ⟨v, hv, hvd⟩ := h.waiting_dep d l hd x hx
      rw [hlx] at hv
      cases hv
      exact (h.waiting_key d l hd) (hdeps d hvd)
    have key : ∀ (y : String),
        lookupA (insertA u.tasks x { tx with status := TaskStatus.pending }) y =
          if y = x then some { tx with status := TaskStatus.pending }
          else lookupA u.tasks y :=
      fun y => lookupA_insertA u.tasks x y _
    constructor
    · intro j hj
      obtain ⟨v, hv, hvs⟩ := h.completed_status j hj
      have hji : j ≠ x := fun hc => hxc (hc ▸ hj)
      exact ⟨v, by rw [key, if_neg hji]; exact hv, hvs⟩
    · intro j hj
      obtain ⟨v, hv, hvs⟩ := h.failed_status j hj
      have hji : j ≠ x := fun hc => hxf (hc ▸ hj)
      exact ⟨v, by rw [key, if_neg hji]; exact hv, hvs⟩
    · intro j hj
      obtain ⟨v, hv, hvs⟩ := h.running_status j hj
      have hji : j ≠ x := fun hc => hxr (hc ▸ hj)
      exact ⟨v, by rw [key, if_neg hji]; exact hv, hvs⟩
    · intro j v hv hvs
      by_cases hji : j = x
      · subst hji
        rw [key, if_pos rfl] at hv
        cases hv
        cases hvs
      · rw [key, if_neg hji] at hv
        exact h.running_deps j v hv hvs
    · intro e he
      rcases List.mem_append.mp he with he | he
      · obtain ⟨v, hv, hvs, hvd⟩ := h.queue_ok e he
        have hji : e.2 ≠ x := hxq e he
        exact ⟨v, by rw [key, if_neg hji]; exact hv, hvs, hvd⟩
      · simp at he
        subst he
        refine ⟨{ tx with status := TaskStatus.pending }, ?_, Or.inl rfl, ?_⟩
        · rw [key, if_pos rfl]
        · exact hdeps
    · intro w2 ph2 j hw2 hp2
      obtain ⟨v, hv, hvs⟩ := h.worker_ok w2 ph2 j hw2 hp2
      have hji : j ≠ x := hxw w2 ph2 j hw2 hp2
      exact ⟨v, by rw [key, if_neg hji]; exact hv, hvs⟩
    · intro j v hv hve
      by_cases hji : j = x
      · subst hji
        rw [key, if_pos rfl] at hv
        cases hv
        simp [hxe] at hve
      · rw [key, if_neg hji] at hv
        exact h.error_failed j v hv hve
    · intro d l hd y hy
      obtain ⟨v, hv, hvs⟩ := h.waiting_status d l hd y hy
      have hji : y ≠ x := fun hc => hxreg d l hd (hc ▸ hy)
      exact ⟨v, by rw [key, if_neg hji]; exact hv, hvs⟩
    · intro d l hd y hy
      obtain ⟨v, hv, hvd⟩ := h.waiting_dep d l hd y hy
      have hji : y ≠ x := fun hc => hxreg d l hd (hc ▸ hy)
      exact ⟨v, by rw [key, if_neg hji]; exact hv, hvd⟩
    · exact h.waiting_key
    · exact h.waiting_nodup
    · intro w2 ph2 j hw2 hp2 e he
      rcases List.mem_append.mp he with he | he
      · exact h.worker_queue w2 ph2 j hw2 hp2 e he
      · simp at he
        subst he
        intro hc
        exact (hxw w2 ph2 j hw2 hp2) hc.symm
    · exact h.worker_uniq
    · rw [List.map_append]
      exact nodup_append_singleton h.queue_nodup
        (by
          intro hc
          obtain ⟨e, he, he2⟩ := List.mem_map.mp hc
          exact hxq e he he2)
  · rw [if_neg hall]
    exact h

theorem inv_releaseDeps : ∀ (ws : List String) (u : Sched), Inv u →
    ws.Nodup →
    (∀ x ∈ ws, ∃ tx, lookupA u.tasks x = some tx ∧
      tx.status = TaskStatus.waiting) →
    Inv (releaseDeps u ws) := by
  intro ws
  induction ws with
  | nil => intro u h _ _; exact h
  | cons x rest ih =>
      intro u h hnd hws
      obtain ⟨tx, hlx, hwx⟩ := hws x (List.mem_cons_self x rest)
      rw [List.nodup_cons] at hnd
      refine ih (releaseOne u x) (inv_releaseOne h hlx hwx) hnd.2 ?_
      intro y hy
      obtain ⟨ty, hly, hwy⟩ := hws y (List.mem_cons_of_mem x hy)
      refine ⟨ty, ?_, hwy⟩
      rw [releaseOne_lookup_ne (fun hc => hnd.1 (by rw [← hc]; exact hy))]
      exact hly

/-! ### Preservation: completion and terminal failure -/

theorem inv_completeBody {u : Sched} (h : Inv u) {tid : String}
    {task task' : Task} (hlk : lookupA u.tasks tid = some task)
    (hrun : task.status = TaskStatus.running)
    (hdep : task'.dependencies = task.dependencies)
    (herr : task'.error = none)
    (hnq : ∀ e ∈ u.queue, e.2 ≠ tid)
    (hnow : ∀ w2 ph2 j, getW u.workers w2 = some ph2 →
      phaseId ph2 = some j → j ≠ tid) :
    Inv (completeBody u tid task') := by
  have hntc : tid ∉ u.completed := by
    intro hc
    obtain ⟨v, hv, hvs⟩ := h.completed_status tid hc
    rw [hlk] at hv
    cases hv
    rw [hrun] at hvs
    cases hvs
  have hntf : tid ∉ u.failed := by
    intro hc
    obtain ⟨v, hv, hvs⟩ := h.failed_status tid hc
    rw [hlk] at hv
    cases hv
    rw [hrun] at hvs
    cases hvs
  have hnreg : ∀ d l, lookupA u.waiting_tasks d = some l → tid ∉ l := by
    intro d l hd hx
    obtain ⟨v, hv, hvs⟩ := h.waiting_status d l hd tid hx
    rw [hlk] at hv
    cases hv
    rw [hrun] at hvs
    cases hvs
  have hdeps : ∀ d ∈ task.dependencies, d ∈ u.completed :=
    (h.running_deps tid task hlk hrun).2
  have key : ∀ (y : String),
      lookupA (insertA u.tasks tid { task' with status := TaskStatus.completed, completed_time := some u.clock }) y =
        if y = tid then some { task' with status := TaskStatus.completed, completed_time := some u.clock }
        else lookupA u.tasks y :=
    fun y => lookupA_insertA u.tasks tid y _
  have h3 : Inv { u with
      clock := u.clock + 1
      tasks := insertA u.tasks tid { task' with status := TaskStatus.completed, completed_time := some u.clock }
      completed := addS u.completed tid
      running := removeS u.running tid
      waiting_tasks := eraseA u.waiting_tasks tid } := by
    constructor
    · intro j hj
      rcases mem_addS.mp hj with hj | rfl
      · obtain ⟨v, hv, hvs⟩ := h.completed_status j hj
        have hji : j ≠ tid := fun hc => hntc (hc ▸ hj)
        exact ⟨v, by rw [key, if_neg hji]; exact hv, hvs⟩
      · exact ⟨_, by rw [key, if_pos rfl], rfl⟩
    · intro j hj
      obtain ⟨v, hv, hvs⟩ := h.failed_status j hj
      have hji : j ≠ tid := fun hc => hntf (hc ▸ hj)
      exact ⟨v, by rw [key, if_neg hji]; exact hv, hvs⟩
    · intro j hj
      obtain ⟨hj0, hji⟩ := mem_removeS.mp hj
      obtain ⟨v, hv, hvs⟩ := h.running_status j hj0
      exact ⟨v, by rw [key, if_neg hji]; exact hv, hvs⟩
    · intro j v hv hvs
      by_cases hji : j = tid
      · subst hji
        rw [key, if_pos rfl] at hv
        cases hv
        cases hvs
      · rw [key, if_neg hji] at hv
        obtain ⟨hr, hd⟩ := h.running_deps j v hv hvs
        exact ⟨mem_removeS.mpr ⟨hr, hji⟩,
          fun d hdm => mem_addS.mpr (Or.inl (hd d hdm))⟩
    · intro e he
      obtain ⟨v, hv, hvs, hvd⟩ := h.queue_ok e he
      have hji : e.2 ≠ tid := hnq e he
      exact ⟨v, by rw [key, if_neg hji]; exact hv, hvs,
        fun d hdm => mem_addS.mpr (Or.inl (hvd d hdm))⟩
    · intro w2 ph2 j hw2 hp2
      obtain ⟨v, hv, hvs⟩ := h.worker_ok w2 ph2 j hw2 hp2
      have hji : j ≠ tid := hnow w2 ph2 j hw2 hp2
      exact ⟨v, by rw [key, if_neg hji]; exact hv, hvs⟩
    · intro j v hv hve
      by_cases hji : j = tid
      · subst hji
        rw [key, if_pos rfl] at hv
        cases hv
        simp [herr] at hve
      · rw [key, if_neg hji] at hv
        exact h.error_failed j v hv hve
    · intro d l hd y hy
      rw [lookupA_eraseA] at hd
      by_cases hdt : d = tid
      · rw [if_pos hdt] at hd
        cases hd
      · rw [if_neg hdt] at hd
        obtain ⟨v, hv, hvs⟩ := h.waiting_status d l hd y hy
        have hji : y ≠ tid := fun hc => hnreg d l hd (hc ▸ hy)
        exact ⟨v, by rw [key, if_neg hji]; exact hv, hvs⟩
    · intro d l hd y hy
      rw [lookupA_eraseA] at hd
      by_cases hdt : d = tid
      · rw [if_pos hdt] at hd
        cases hd
      · rw [if_neg hdt] at hd
        obtain ⟨v, hv, hvd⟩ := h.waiting_dep d l hd y hy
        have hji : y ≠ tid := fun hc => hnreg d l hd (hc ▸ hy)
        exact ⟨v, by rw [key, if_neg hji]; exact hv, hvd⟩
    · intro d l hd
      rw [lookupA_eraseA] at hd
      by_cases hdt : d = tid
      · rw [if_pos hdt] at hd
        cases hd
      · rw [if_neg hdt] at hd
        intro hc
        rcases mem_addS.mp hc with hc | hc
        · exact (h.waiting_key d l hd) hc
        · exact hdt hc
    · intro d l hd
      rw [lookupA_eraseA] at hd
      by_cases hdt : d = tid
      · rw [if_pos hdt] at hd
        cases hd
      · rw [if_neg hdt] at hd
        exact h.waiting_nodup d l hd
    · exact h.worker_queue
    · exact h.worker_uniq
    · exact h.queue_nodup
  show Inv (releaseDeps
    { u with
        clock := u.clock + 1
        tasks := insertA u.tasks tid { task' with status := TaskStatus.completed, completed_time := some u.clock }
        completed := addS u.completed tid
        running := removeS u.running tid
        waiting_tasks := eraseA u.waiting_tasks tid }
    ((lookupA u.waiting_tasks tid).getD []))
  cases hwl : lookupA u.waiting_tasks tid with
  | none =>
      simp only [Option.getD_none]
      exact inv_releaseDeps [] _ h3 List.nodup_nil (by intro x hx; cases hx)
  | some L =>
      simp only [Option.getD_some]
      refine inv_releaseDeps L _ h3 (h.waiting_nodup tid L hwl) ?_
      intro x hx
      obtain ⟨v, hv, hvs⟩ := h.waiting_status tid L hwl x hx
      have hji : x ≠ tid := by
        intro hc
        rw [hc, hlk] at hv
        cases hv
        rw [hrun] at hvs
        cases hvs
      exact ⟨v, by rw [key, if_neg hji]; exact hv, hvs⟩

theorem inv_failBody {u : Sched} (h : Inv u) {tid : String}
    {task task' : Task} {er : String}
    (hlk : lookupA u.tasks tid = some task)
    (hrun : task.status = TaskStatus.running)
    (hnq : ∀ e ∈ u.queue, e.2 ≠ tid)
    (hnow : ∀ w2 ph2 j, getW u.workers w2 = some ph2 →
      phaseId ph2 = some j → j ≠ tid) :
    Inv (failBody u tid task' er) := by
  have hntc : tid ∉ u.completed := by
    intro hc
    obtain ⟨v, hv, hvs⟩ := h.completed_status tid hc
    rw [hlk] at hv
    cases hv
    rw [hrun] at hvs
    cases hvs
  have hntf : tid ∉ u.failed := by
    intro hc
    obtain ⟨v, hv, hvs⟩ := h.failed_status tid hc
    rw [hlk] at hv
    cases hv
    rw [hrun] at hvs
    cases hvs
  have hnreg : ∀ d l, lookupA u.waiting_tasks d = some l → tid ∉ l := by
    intro d l hd hx
    obtain ⟨v, hv, hvs⟩ := h.waiting_status d l hd tid hx
    rw [hlk] at hv
    cases hv
    rw [hrun] at hvs
    cases hvs
  have key : ∀ (y : String),
      lookupA (insertA u.tasks tid { task' with status := TaskStatus.failed, error := some er }) y =
        if y = tid then some { task' with status := TaskStatus.failed, error := some er }
        else lookupA u.tasks y :=
    fun y => lookupA_insertA u.tasks tid y _
  unfold failBody
  constructor
  · intro j hj
    obtain ⟨v, hv, hvs⟩ := h.completed_status j hj
    have hji : j ≠ tid := fun hc => hntc (hc ▸ hj)
    exact ⟨v, by rw [key, if_neg hji]; exact hv, hvs⟩
  · intro j hj
    rcases mem_addS.mp hj with hj | rfl
    · obtain ⟨v, hv, hvs⟩ := h.failed_status j hj
      have hji : j ≠ tid := fun hc => hntf (hc ▸ hj)
      exact ⟨v, by rw [key, if_neg hji]; exact hv, hvs⟩
    · exact ⟨_, by rw [key, if_pos rfl], rfl⟩
  · intro j hj
    obtain ⟨hj0, hji⟩ := mem_removeS.mp hj
    obtain ⟨v, hv, hvs⟩ := h.running_status j hj0
    exact ⟨v, by rw [key, if_neg hji]; exact hv, hvs⟩
  · intro j v hv hvs
    by_cases hji : j = tid
    · subst hji
      rw [key, if_pos rfl] at hv
      cases hv
      cases hvs
    · rw [key, if_neg hji] at hv
      obtain ⟨hr, hd⟩ := h.running_deps j v hv hvs
      exact ⟨mem_removeS.mpr ⟨hr, hji⟩, hd⟩
  · intro e he
    obtain ⟨v, hv, hvs, hvd⟩ := h.queue_ok e he
    have hji : e.2 ≠ tid := hnq e he
    exact ⟨v, by rw [key, if_neg hji]; exact hv, hvs, hvd⟩
  · intro w2 ph2 j hw2 hp2
    obtain ⟨v, hv, hvs⟩ := h.worker_ok w2 ph2 j hw2 hp2
    have hji : j ≠ tid := hnow w2 ph2 j hw2 hp2
    exact ⟨v, by rw [key, if_neg hji]; exact hv, hvs⟩
  · intro j v hv hve
    by_cases hji : j = tid
    · subst hji
      rw [key, if_pos rfl] at hv
      cases hv
      rfl
    · rw [key, if_neg hji] at hv
      exact h.error_failed j v hv hve
  · intro d l hd y hy
    obtain ⟨v, hv, hvs⟩ := h.waiting_status d l hd y hy
    have hji : y ≠ tid := fun hc => hnreg d l hd (hc ▸ hy)
    exact ⟨v, by rw [key, if_neg hji]; exact hv, hvs⟩
  · intro d l hd y hy
    obtain ⟨v, hv, hvd⟩ := h.waiting_dep d l hd y hy
    have hji : y ≠ tid := fun hc => hnreg d l hd (hc ▸ hy)
    exact ⟨v, by rw [key, if_neg hji]; exact hv, hvd⟩
  · exact h.waiting_key
  · exact h.waiting_nodup
  · exact h.worker_queue
  · exact h.worker_uniq
  · exact h.queue_nodup

/-! ### Preservation: the payload-outcome and requeue steps -/

theorem inv_finish {s s' : Sched} {w : Nat} (h : Inv s)
    (hs : finishExec s w = some s') : Inv s' := by
  unfold finishExec at hs
  cases hgw : getW s.workers w with
  | none => rw [hgw] at hs; cases hs
  | some ph =>
      rw [hgw] at hs
      cases ph with
      | idle => cases hs
      | retryWait tid => cases hs
      | executing tid =>
          cases hlk : lookupA s.tasks tid with
          | none =>
              simp only [hlk] at hs
              cases hs
          | some task =>
              obtain ⟨task0, hlk0, hrun⟩ :=
                h.worker_ok w (WorkerPhase.executing tid) tid hgw rfl
              rw [hlk] at hlk0
              cases hlk0
              have hnq : ∀ e ∈ s.queue, e.2 ≠ tid :=
                h.worker_queue w (WorkerPhase.executing tid) tid hgw rfl
              have hnow1 : ∀ w2 ph2 j,
                  getW (setW s.workers w WorkerPhase.idle) w2 = some ph2 →
                  phaseId ph2 = some j → j ≠ tid := by
                intro w2 ph2 j hw2 hp2 hc
                by_cases hww : w2 = w
                · rw [hww, getW_setW_self (by rw [hgw]; rfl)] at hw2
                  cases hw2
                  cases hp2
                · rw [getW_setW_ne s.workers w w2 _ hww] at hw2
                  refine hww (h.worker_uniq w2 w ph2
                    (WorkerPhase.executing tid) tid hw2 hgw ?_ rfl)
                  rw [← hc]
                  exact hp2
              have herr : task.error = none := by
                cases he : task.error with
                | none => rfl
                | some er =>
                    have := h.error_failed tid task hlk (by rw [he]; simp)
                    rw [hrun] at this
                    cases this
              have h1 : Inv { s with workers := setW s.workers w WorkerPhase.idle } :=
                inv_worker_idle h w
              cases hout : task.func task.invocations with
              | ok v =>
                  simp only [hlk, hout] at hs
                  rw [Option.some_inj] at hs
                  subst hs
                  refine inv_setCompletedNow ?_ tid
                  exact inv_completeBody h1 hlk hrun rfl herr hnq hnow1
              | error e =>
                  cases hrp : task.retry_policy with
                  | none =>
                      simp only [hlk, hout, hrp] at hs
                      rw [Option.some_inj] at hs
                      subst hs
                      refine inv_setCompletedNow ?_ tid
                      exact inv_failBody h1 hlk hrun hnq hnow1
                  | some rp =>
                      by_cases hlt : task.retry_count < rp.max_retries
                      · simp only [hlk, hout, hrp, hlt, if_true] at hs
                        rw [Option.some_inj] at hs
                        subst hs
                        rw [← hrp]
                        have htask : Inv { s with
                            tasks := insertA s.tasks tid { task with invocations := task.invocations + 1, retry_count := task.retry_count + 1 } } :=
                          inv_update_task h hlk rfl rfl rfl
                        exact inv_setW_samePhase htask (WorkerPhase.retryWait tid) hgw rfl
                      · simp only [hlk, hout, hrp, hlt, if_false] at hs
                        rw [Option.some_inj] at hs
                        subst hs
                        refine inv_setCompletedNow ?_ tid
                        exact inv_failBody h1 hlk hrun hnq hnow1

theorem inv_requeue {s s' : Sched} {w : Nat} (h : Inv s)
    (hs : requeueExec s w = some s') : Inv s' := by
  unfold requeueExec at hs
  cases hgw : getW s.workers w with
  | none => rw [hgw] at hs; cases hs
  | some ph =>
      rw [hgw] at hs
      cases ph with
      | idle => cases hs
      | executing tid => cases hs
      | retryWait tid =>
          cases hlk : lookupA s.tasks tid with
          | none =>
              simp only [hlk] at hs
              cases hs
          | some task =>
              obtain ⟨task0, hlk0, hrun⟩ :=
                h.worker_ok w (WorkerPhase.retryWait tid) tid hgw rfl
              rw [hlk] at hlk0
              cases hlk0
              have hnq : ∀ e ∈ s.queue, e.2 ≠ tid :=
                h.worker_queue w (WorkerPhase.retryWait tid) tid hgw rfl
              have hnow1 : ∀ w2 ph2 j,
                  getW (setW s.workers w WorkerPhase.idle) w2 = some ph2 →
                  phaseId ph2 = some j → j ≠ tid := by
                intro w2 ph2 j hw2 hp2 hc
                by_cases hww : w2 = w
                · rw [hww, getW_setW_self (by rw [hgw]; rfl)] at hw2
                  cases hw2
                  cases hp2
                · rw [getW_setW_ne s.workers w w2 _ hww] at hw2
                  refine hww (h.worker_uniq w2 w ph2
                    (WorkerPhase.retryWait tid) tid hw2 hgw ?_ rfl)
                  rw [← hc]
                  exact hp2
              have hdeps : ∀ d ∈ task.dependencies, d ∈ s.completed :=
                (h.running_deps tid task hlk hrun).2
              simp only [hlk] at hs
              rw [Option.some_inj] at hs
              subst hs
              have hmid : Inv { s with workers := setW s.workers w WorkerPhase.idle } :=
                inv_worker_idle h w
              refine inv_setCompletedNow ?_ tid
              exact inv_enqueue hmid hlk (Or.inr hrun) hdeps hnq hnow1
                (-task.priority)

/-! ### The invariant holds on every reachable state -/

theorem inv_init (mw : Nat) : Inv (initSched mw) := by
  constructor
  · intro i hi; cases hi
  · intro i hi; cases hi
  · intro i hi; cases hi
  · intro i t hl; cases hl
  · intro e he; cases he
  · intro w ph i hw; cases hw
  · intro i t hl; cases hl
  · intro d l hd; cases hd
  · intro d l hd; cases hd
  · intro d l hd; cases hd
  · intro d l hd; cases hd
  · intro w ph i hw; cases hw
  · intro w1 w2 ph1 ph2 i hw1; cases hw1
  · exact List.nodup_nil

theorem inv_step {s s' : Sched} {a : Action} (h : Inv s) (hok : okAction s a)
    (hs : step s a = some s') : Inv s' := by
  cases a with
  | start =>
      cases hs
      exact inv_start h
  | stop =>
      cases hs
      exact inv_stop h
  | submit t =>
      cases hs
      exact inv_submit h hok
  | pop w => exact inv_pop h hs
  | finish w => exact inv_finish h hs
  | requeue w => exact inv_requeue h hs

theorem inv_reach {s : Sched} (h : Reach s) : Inv s := by
  induction h with
  | init mw => exact inv_init mw
  | next hr hok hs ih => exact inv_step ih hok hs

/-! ### Parametric single-task traces

The following family of states describes a 1-worker scheduler processing a
single dependency-free task `"t"` with retry policy `max_retries = N`:
`mkMid` (task in the ready queue, worker idle), `mkRun` (worker executing),
`mkWait` (worker in the backoff sleep), `endOk` / `endFail` (drained).
They drive claims C3, C9 and C10. -/

def retryPol (N : Nat) : RetryPolicy :=
  { max_retries := N, initial_delay := 1, max_delay := 60, backoff_factor := 2, jitter := true }

def taskRec (f : Nat → Except String Nat) (N : Nat) (st : TaskStatus)
    (res : Option Nat) (err : Option String) (rc inv : Nat)
    (stime ctime : Option Nat) : Task :=
  { id := "t", func := f, priority := 0, dependencies := [],
    retry_policy := some (retryPol N), status := st, result := res,
    error := err, retry_count := rc, scheduled_time := some 0,
    started_time := stime, completed_time := ctime, invocations := inv }

def mkMid (f : Nat → Except String Nat) (N k c : Nat) (st : TaskStatus)
    (stime ctime : Option Nat) (run : List String) : Sched :=
  { max_workers := 1, tasks := [("t", taskRec f N st none none k k stime ctime)],
    running := run, completed := [], failed := [], queue := [(0, "t")],
    waiting_tasks := [], workers := [WorkerPhase.idle], tracked := 1,
    stop_event := false, started := true, clock := c }

def mkRun (f : Nat → Except String Nat) (N k c : Nat)
    (stime ctime : Option Nat) : Sched :=
  { max_workers := 1, tasks := [("t", taskRec f N TaskStatus.running none none k k stime ctime)],
    running := ["t"], completed := [], failed := [], queue := [],
    waiting_tasks := [], workers := [WorkerPhase.executing "t"], tracked := 1,
    stop_event := false, started := true, clock := c }

theorem pop_step (f : Nat → Except String Nat) (N k c : Nat) (st : TaskStatus)
    (stime ctime : Option Nat) (run : List String)
    (hrun : addS run "t" = ["t"]) :
    step (mkMid f N k c st stime ctime run) (Action.pop 0) =
      some (mkRun f N k (c + 1) (some c) ctime) := by
  unfold step startExec mkMid mkRun taskRec
  simp [getW, popMin, lookupA, insertA, setW, hrun]

def mkWait (f : Nat → Except String Nat) (N k c : Nat)
    (stime ctime : Option Nat) : Sched :=
  { max_workers := 1, tasks := [("t", taskRec f N TaskStatus.running none none k k stime ctime)],
    running := ["t"], completed := [], failed := [], queue := [],
    waiting_tasks := [], workers := [WorkerPhase.retryWait "t"], tracked := 1,
    stop_event := false, started := true, clock := c }

def endOk (f : Nat → Except String Nat) (N k v c : Nat)
    (stime : Option Nat) : Sched :=
  { max_workers := 1, tasks := [("t", taskRec f N TaskStatus.completed (some v) none k (k + 1) stime (some (c + 1)))],
    running := [], completed := ["t"], failed := [], queue := [],
    waiting_tasks := [], workers := [WorkerPhase.idle], tracked := 1,
    stop_event := false, started := true, clock := c + 2 }

def endFail (f : Nat → Except String Nat) (N k : Nat) (e : String) (c : Nat)
    (stime : Option Nat) : Sched :=
  { max_workers := 1, tasks := [("t", taskRec f N TaskStatus.failed none (some e) k (k + 1) stime (some c))],
    running := [], completed := [], failed := ["t"], queue := [],
    waiting_tasks := [], workers := [WorkerPhase.idle], tracked := 1,
    stop_event := false, started := true, clock := c + 1 }

theorem finish_retry_step (f : Nat → Except String Nat) (N k c : Nat)
    (stime ctime : Option Nat) (e : String)
    (hf : f k = Except.error e) (hk : k < N) :
    step (mkRun f N k c stime ctime) (Action.finish 0) =
      some (mkWait f N (k + 1) c stime ctime) := by
  unfold step finishExec mkRun mkWait taskRec retryPol
  simp [getW, lookupA, insertA, setW, hf, hk]

theorem finish_ok_step (f : Nat → Except String Nat) (N k c : Nat)
    (stime ctime : Option Nat) (v : Nat)
    (hf : f k = Except.ok v) :
    step (mkRun f N k c stime ctime) (Action.finish 0) =
      some (endOk f N k v c stime) := by
  unfold step finishExec mkRun endOk taskRec retryPol
  simp [getW, lookupA, insertA, setW, hf, completeBody, check_dependent_tasks,
    eraseA, releaseDeps, setCompletedNow, addS, removeS, memS]

theorem finish_fail_step (f : Nat → Except String Nat) (N k c : Nat)
    (stime ctime : Option Nat) (e : String)
    (hf : f k = Except.error e) (hk : ¬ k < N) :
    step (mkRun f N k c stime ctime) (Action.finish 0) =
      some (endFail f N k e c stime) := by
  unfold step finishExec mkRun endFail taskRec retryPol
  simp [getW, lookupA, insertA, setW, hf, hk, failBody, setCompletedNow,
    addS, removeS, memS]

theorem requeue_step (f : Nat → Except String Nat) (N k c : Nat)
    (stime ctime : Option Nat) :
    step (mkWait f N k c stime ctime) (Action.requeue 0) =
      some (mkMid f N k (c + 1) TaskStatus.running stime (some c) ["t"]) := by
  unfold step requeueExec mkWait mkMid taskRec
  simp [getW, lookupA, insertA, setW, setCompletedNow]

theorem applyActions_append (l1 l2 : List Action) (s : Sched) :
    applyActions (l1 ++ l2) s =
      match applyActions l1 s with
      | none => none
      | some s1 => applyActions l2 s1 := by
  induction l1 generalizing s with
  | nil => simp [applyActions]
  | cons a l1 ih =>
      simp only [List.cons_append, applyActions]
      cases step s a with
      | none => rfl
      | some s1 => exact ih s1

def cycleActs : List Action := [Action.pop 0, Action.finish 0, Action.requeue 0]

def retrySched : Nat → List Action
  | 0 => [Action.pop 0, Action.finish 0]
  | n + 1 => cycleActs ++ retrySched n

theorem cycle_run (f : Nat → Except String Nat) (N k c : Nat)
    (st : TaskStatus) (stime ctime : Option Nat) (run : List String)
    (e : String) (hrun : addS run "t" = ["t"])
    (hf : f k = Except.error e) (hk : k < N) :
    applyActions cycleActs (mkMid f N k c st stime ctime run) =
      some (mkMid f N (k + 1) (c + 2) TaskStatus.running (some c)
        (some (c + 1)) ["t"]) := by
  have h1 := pop_step f N k c st stime ctime run hrun
  have h2 := finish_retry_step f N k (c + 1) (some c) ctime e hf hk
  have h3 := requeue_step f N (k + 1) (c + 1) (some c) ctime
  simp only [cycleActs, applyActions, h1, h2, h3]

theorem final_fail_run (f : Nat → Except String Nat) (N c : Nat)
    (st : TaskStatus) (stime ctime : Option Nat) (run : List String)
    (e : String) (hrun : addS run "t" = ["t"])
    (hf : f N = Except.error e) :
    applyActions (retrySched 0) (mkMid f N N c st stime ctime run) =
      some (endFail f N N e (c + 1) (some c)) := by
  have h1 := pop_step f N N c st stime ctime run hrun
  have h2 := finish_fail_step f N N (c + 1) (some c) ctime e hf (lt_irrefl N)
  simp only [retrySched, applyActions, h1, h2]

theorem final_ok_run (f : Nat → Except String Nat) (N k c : Nat)
    (st : TaskStatus) (stime ctime : Option Nat) (run : List String) (v : Nat)
    (hrun : addS run "t" = ["t"]) (hf : f k = Except.ok v) :
    applyActions (retrySched 0) (mkMid f N k c st stime ctime run) =
      some (endOk f N k v (c + 1) (some c)) := by
  have h1 := pop_step f N k c st stime ctime run hrun
  have h2 := finish_ok_step f N k (c + 1) (some c) ctime v hf
  simp only [retrySched, applyActions, h1, h2]

theorem drain_fail (f : Nat → Except String Nat) (e : String)
    (hf : ∀ i, f i = Except.error e) (N : Nat) : ∀ (n k c : Nat)
    (st : TaskStatus) (stime ctime : Option Nat) (run : List String),
    k + n = N → addS run "t" = ["t"] →
    applyActions (retrySched n) (mkMid f N k c st stime ctime run) =
      some (endFail f N N e (c + 2 * n + 1) (some (c + 2 * n))) := by
  intro n
  induction n with
  | zero =>
      intro k c st stime ctime run hk hrun
      have hkN : k = N := by omega
      subst hkN
      simpa using final_fail_run f k c st stime ctime run e hrun (hf k)
  | succ n ih =>
      intro k c st stime ctime run hk hrun
      have hkN : k < N := by omega
      rw [show retrySched (n + 1) = cycleActs ++ retrySched n from rfl,
        applyActions_append,
        cycle_run f N k c st stime ctime run e hrun (hf k) hkN]
      have hih := ih (k + 1) (c + 2) TaskStatus.running (some c) (some (c + 1))
        ["t"] (by omega) rfl
      simp only [hih]
      have harith : c + 2 + 2 * n = c + 2 * (n + 1) := by ring
      rw [harith]

def flaky (K v : Nat) : Nat → Except String Nat :=
  fun i => if i < K then Except.error "boom" else Except.ok v

theorem drain_flaky (K v N : Nat) (hKN : K ≤ N) : ∀ (n k c : Nat)
    (st : TaskStatus) (stime ctime : Option Nat) (run : List String),
    k + n = K → addS run "t" = ["t"] →
    applyActions (retrySched n) (mkMid (flaky K v) N k c st stime ctime run) =
      some (endOk (flaky K v) N K v (c + 2 * n + 1) (some (c + 2 * n))) := by
  intro n
  induction n with
  | zero =>
      intro k c st stime ctime run hk hrun
      have hkK : k = K := by omega
      subst hkK
      have hfk : flaky k v k = Except.ok v := by simp [flaky]
      simpa using final_ok_run (flaky k v) N k c st stime ctime run v hrun hfk
  | succ n ih =>
      intro k c st stime ctime run hk hrun
      have hkK : k < K := by omega
      have hfk : flaky K v k = Except.error "boom" := by simp [flaky, hkK]
      rw [show retrySched (n + 1) = cycleActs ++ retrySched n from rfl,
        applyActions_append,
        cycle_run (flaky K v) N k c st stime ctime run "boom" hrun hfk
          (by omega)]
      have hih := ih (k + 1) (c + 2) TaskStatus.running (some c) (some (c + 1))
        ["t"] (by omega) rfl
      simp only [hih]
      have harith : c + 2 + 2 * n = c + 2 * (n + 1) := by ring
      rw [harith]

theorem init_run (f : Nat → Except String Nat) (N : Nat) :
    applyActions
      [Action.start, Action.submit (taskRec f N TaskStatus.pending none none 0 0 none none)]
      (initSched 1) = some (mkMid f N 0 0 TaskStatus.pending none none []) := rfl
/-! ### Claims C1, C3, C5, C9, C10 -/

/--
C1 (confirmed).  Dependency gating: at every reachable instant of the
scheduler, if task B (with A's id among its dependencies) is RUNNING — by
status or by membership in the running set, which is what "popped for
execution" immediately produces — then A's id is already in the completed
set and A's task record has status COMPLETED.  Since the completed set
only ever grows, this is precisely "B never enters RUNNING before A has
reached COMPLETED", for every worker-pool size (`Reach` covers schedulers
of any `max_workers` and any interleaving of workers).
-/
theorem C1_dependency_gate (s : Sched) (bid aid : String) (tB : Task)
    (hreach : Reach s) (hB : lookupA s.tasks bid = some tB)
    (hdep : aid ∈ tB.dependencies)
    (hrun : tB.status = TaskStatus.running ∨ bid ∈ s.running) :
    aid ∈ s.completed ∧
      ∃ tA, lookupA s.tasks aid = some tA ∧
        tA.status = TaskStatus.completed := by
  have hinv := inv_reach hreach
  have hrun2 : tB.status = TaskStatus.running := by
    rcases hrun with h | h
    · exact h
    · obtain ⟨v, hv, hvs⟩ := hinv.running_status bid h
      rw [hB] at hv
      cases hv
      exact hvs
  have hac : aid ∈ s.completed :=
    (hinv.running_deps bid tB hB hrun2).2 aid hdep
  obtain ⟨tA, hA, hAs⟩ := hinv.completed_status aid hac
  exact ⟨hac, tA, hA, hAs⟩

/-- Task "a" of the C1 witness trace. -/
def c1A : Task :=
  { id := "a", func := fun _ => Except.ok 5, priority := 0, dependencies := [],
    retry_policy := none, status := TaskStatus.pending, result := none,
    error := none, retry_count := 0, scheduled_time := some 0,
    started_time := none, completed_time := none, invocations := 0 }

/-- Task "b" of the C1 witness trace: depends on "a". -/
def c1B : Task :=
  { id := "b", func := fun _ => Except.ok 9, priority := 0,
    dependencies := ["a"], retry_policy := none,
    status := TaskStatus.pending, result := none, error := none,
    retry_count := 0, scheduled_time := some 0, started_time := none,
    completed_time := none, invocations := 0 }

/-- C1 witness trace: start; submit "b" (parks WAITING); submit "a";
pop+run "a" (completes and releases "b"); pop "b" (now RUNNING). -/
def c1s1 : Sched := TaskScheduler.start (initSched 1)

def c1s2 : Sched := (TaskScheduler.submit c1s1 c1B).2

def c1s3 : Sched := (TaskScheduler.submit c1s2 c1A).2

def c1s4 : Sched := (startExec c1s3 0).getD (initSched 1)

def c1s5 : Sched := (finishExec c1s4 0).getD (initSched 1)

def c1s6 : Sched := (startExec c1s5 0).getD (initSched 1)

theorem c1reach : Reach c1s6 := by
  have h1 : Reach c1s1 := by
    refine Reach.next (Reach.init 1) ?_
      (show step (initSched 1) Action.start = some c1s1 from rfl)
    trivial
  have h2 : Reach c1s2 := by
    refine Reach.next h1 ?_
      (show step c1s1 (Action.submit c1B) = some c1s2 from rfl)
    exact ⟨rfl, rfl, rfl, rfl, rfl, rfl, rfl, rfl⟩
  have h3 : Reach c1s3 := by
    refine Reach.next h2 ?_
      (show step c1s2 (Action.submit c1A) = some c1s3 from rfl)
    exact ⟨rfl, rfl, rfl, rfl, rfl, rfl, rfl, rfl⟩
  have h4 : Reach c1s4 := by
    refine Reach.next h3 ?_
      (show step c1s3 (Action.pop 0) = some c1s4 from rfl)
    trivial
  have h5 : Reach c1s5 := by
    refine Reach.next h4 ?_
      (show step c1s4 (Action.finish 0) = some c1s5 from rfl)
    trivial
  refine Reach.next h5 ?_
    (show step c1s5 (Action.pop 0) = some c1s6 from rfl)
  trivial

/-- Witness for `C1_dependency_gate` on the concrete trace: "b" is
RUNNING, so "a" is COMPLETED. -/
theorem C1_dependency_gate_witness :
    "a" ∈ c1s6.completed ∧
      ∃ tA, lookupA c1s6.tasks "a" = some tA ∧
        tA.status = TaskStatus.completed :=
  C1_dependency_gate c1s6 "b" "a" ((lookupA c1s6.tasks "b").getD c1B)
    c1reach rfl (List.mem_cons_self "a" []) (Or.inl rfl)

/-- The always-failing payload oracle. -/
def failF : Nat → Except String Nat := fun _ => Except.error "boom"

/--
C3 (confirmed).  A single task with `max_retries = N` whose payload raises
on every invocation: the 1-worker scheduler drains through `N` retry
cycles and one terminal attempt, and the task ends FAILED with
`retry_count = N`, the raised exception recorded in `error`, and exactly
`N + 1` payload invocations.
-/
theorem C3_retry_exhaustion (N : Nat) :
    applyActions
        (Action.start ::
          Action.submit
            (taskRec failF N TaskStatus.pending none none 0 0 none none) ::
          retrySched N)
        (initSched 1) =
      some (endFail failF N N "boom" (2 * N + 1) (some (2 * N))) ∧
      ∃ t, TaskScheduler.get_task
            (endFail failF N N "boom" (2 * N + 1) (some (2 * N))) "t" =
          some t ∧
        t.status = TaskStatus.failed ∧ t.retry_count = N ∧
        t.error = some "boom" ∧ t.invocations = N + 1 := by
  constructor
  · have h0 : applyActions
        (Action.start ::
          Action.submit
            (taskRec failF N TaskStatus.pending none none 0 0 none none) ::
          retrySched N)
        (initSched 1) =
        applyActions (retrySched N)
          (mkMid failF N 0 0 TaskStatus.pending none none []) := rfl
    rw [h0, drain_fail failF "boom" (fun _ => rfl) N N 0 0 TaskStatus.pending
      none none [] (by omega) rfl]
    norm_num
  · exact ⟨taskRec failF N TaskStatus.failed none (some "boom") N (N + 1)
      (some (2 * N)) (some (2 * N + 1)), rfl, rfl, rfl, rfl, rfl⟩

/--
C5 (counterexample).  The claim states that no id is simultaneously in the
running set and in the ready queue.  But on a retryable failure the
scheduler increments `retry_count`, sleeps, and re-enqueues the task
*without* removing its id from `_running` (only the terminal branches
remove it), so right after the re-enqueue the id is in both.  The state
below is reached by: start; submit a task with `max_retries = 1` whose
payload raises; pop; payload raises (retryable); requeue.
-/
theorem C5_counterexample :
    Reach (mkMid failF 1 1 2 TaskStatus.running (some 0) (some 1) ["t"]) ∧
      "t" ∈ (mkMid failF 1 1 2 TaskStatus.running (some 0) (some 1)
        ["t"]).running ∧
      ((0 : Int), "t") ∈ (mkMid failF 1 1 2 TaskStatus.running (some 0)
        (some 1) ["t"]).queue := by
  refine ⟨?_, List.mem_cons_self "t" [], List.mem_cons_self ((0 : Int), "t") []⟩
  have h1 : Reach (TaskScheduler.start (initSched 1)) := by
    refine Reach.next (Reach.init 1) ?_
      (show step (initSched 1) Action.start =
        some (TaskScheduler.start (initSched 1)) from rfl)
    trivial
  have h2 : Reach (mkMid failF 1 0 0 TaskStatus.pending none none []) := by
    refine Reach.next h1 ?_
      (show step (TaskScheduler.start (initSched 1))
        (Action.submit (taskRec failF 1 TaskStatus.pending none none 0 0
          none none)) =
        some (mkMid failF 1 0 0 TaskStatus.pending none none []) from rfl)
    exact ⟨rfl, rfl, rfl, rfl, rfl, rfl, rfl, rfl⟩
  have h3 : Reach (mkRun failF 1 0 1 (some 0) none) := by
    refine Reach.next h2 ?_
      (pop_step failF 1 0 0 TaskStatus.pending none none [] rfl)
    trivial
  have h4 : Reach (mkWait failF 1 1 1 (some 0) none) := by
    refine Reach.next h3 ?_
      (finish_retry_step failF 1 0 1 (some 0) none "boom" rfl (by omega))
    trivial
  refine Reach.next h4 ?_ (requeue_step failF 1 1 1 (some 0) none)
  trivial

/--
C5 (amended).  What does hold at every reachable instant: the running,
completed and failed sets are pairwise disjoint, and an id in the ready
queue is in neither the completed nor the failed set (its status is
PENDING, or RUNNING for a task re-queued by the retry path — which is the
one admissible overlap between "in the ready queue" and "in the running
set").
-/
theorem C5_partition (s : Sched) (hreach : Reach s) :
    (∀ i, i ∈ s.running → i ∈ s.completed → False) ∧
      (∀ i, i ∈ s.running → i ∈ s.failed → False) ∧
      (∀ i, i ∈ s.completed → i ∈ s.failed → False) ∧
      (∀ e ∈ s.queue, e.2 ∉ s.completed ∧ e.2 ∉ s.failed) := by
  have hinv := inv_reach hreach
  refine ⟨?_, ?_, ?_, ?_⟩
  · intro i h1 h2
    obtain ⟨t1, hl1, hs1⟩ := hinv.running_status i h1
    obtain ⟨t2, hl2, hs2⟩ := hinv.completed_status i h2
    rw [hl1] at hl2
    cases hl2
    rw [hs1] at hs2
    cases hs2
  · intro i h1 h2
    obtain ⟨t1, hl1, hs1⟩ := hinv.running_status i h1
    obtain ⟨t2, hl2, hs2⟩ := hinv.failed_status i h2
    rw [hl1] at hl2
    cases hl2
    rw [hs1] at hs2
    cases hs2
  · intro i h1 h2
    obtain ⟨t1, hl1, hs1⟩ := hinv.completed_status i h1
    obtain ⟨t2, hl2, hs2⟩ := hinv.failed_status i h2
    rw [hl1] at hl2
    cases hl2
    rw [hs1] at hs2
    cases hs2
  · intro e he
    obtain ⟨t, hl, hst, _⟩ := hinv.queue_ok e he
    constructor
    · intro hc
      obtain ⟨t2, hl2, hs2⟩ := hinv.completed_status _ hc
      rw [hl] at hl2
      cases hl2
      rcases hst with h' | h' <;> rw [h'] at hs2 <;> cases hs2
    · intro hc
      obtain ⟨t2, hl2, hs2⟩ := hinv.failed_status _ hc
      rw [hl] at hl2
      cases hl2
      rcases hst with h' | h' <;> rw [h'] at hs2 <;> cases hs2

theorem c5reach_init : Reach (TaskScheduler.start (initSched 2)) := by
  refine Reach.next (Reach.init 2) ?_
    (show step (initSched 2) Action.start =
      some (TaskScheduler.start (initSched 2)) from rfl)
  trivial

/-- Witness for `C5_partition` at a concrete reachable state. -/
theorem C5_partition_witness :
    (∀ i, i ∈ (TaskScheduler.start (initSched 2)).running →
        i ∈ (TaskScheduler.start (initSched 2)).completed → False) ∧
      (∀ i, i ∈ (TaskScheduler.start (initSched 2)).running →
        i ∈ (TaskScheduler.start (initSched 2)).failed → False) ∧
      (∀ i, i ∈ (TaskScheduler.start (initSched 2)).completed →
        i ∈ (TaskScheduler.start (initSched 2)).failed → False) ∧
      (∀ e ∈ (TaskScheduler.start (initSched 2)).queue,
        e.2 ∉ (TaskScheduler.start (initSched 2)).completed ∧
          e.2 ∉ (TaskScheduler.start (initSched 2)).failed) :=
  C5_partition (TaskScheduler.start (initSched 2)) c5reach_init

/--
C9 (confirmed).  (1) On every reachable state, a task's `error` field is
non-None only if its status is FAILED — so a retryable failed attempt
(which leaves the task RUNNING and re-queues it) records no exception.
(2) A task that fails `K` times and then succeeds (with
`max_retries = N ≥ K`) drains to COMPLETED with `error = None`, its
accumulated `retry_count = K` preserved, and the result stored.
-/
theorem C9_error_semantics :
    (∀ s, Reach s → ∀ i t, lookupA s.tasks i = some t → t.error ≠ none →
        t.status = TaskStatus.failed) ∧
      (∀ K N v, K ≤ N →
        applyActions
            (Action.start ::
              Action.submit (taskRec (flaky K v) N TaskStatus.pending none
                none 0 0 none none) ::
              retrySched K)
            (initSched 1) =
          some (endOk (flaky K v) N K v (2 * K + 1) (some (2 * K))) ∧
        ∃ t, TaskScheduler.get_task
              (endOk (flaky K v) N K v (2 * K + 1) (some (2 * K))) "t" =
            some t ∧
          t.status = TaskStatus.completed ∧ t.error = none ∧
          t.retry_count = K ∧ t.result = some v) := by
  constructor
  · intro s hre i t hl he
    exact (inv_reach hre).error_failed i t hl he
  · intro K N v hKN
    constructor
    · have h0 : applyActions
          (Action.start ::
            Action.submit (taskRec (flaky K v) N TaskStatus.pending none
              none 0 0 none none) ::
            retrySched K)
          (initSched 1) =
          applyActions (retrySched K)
            (mkMid (flaky K v) N 0 0 TaskStatus.pending none none []) := rfl
      rw [h0, drain_flaky K v N hKN K 0 0 TaskStatus.pending none none []
        (by omega) rfl]
      norm_num
    · exact ⟨taskRec (flaky K v) N TaskStatus.completed (some v) none K
        (K + 1) (some (2 * K)) (some (2 * K + 1 + 1)), rfl, rfl, rfl, rfl, rfl⟩

/-- A concrete reachable drained state holding a FAILED task with a
recorded error, for the C9 witness (max_retries = 0, payload raises). -/
theorem c9reach : Reach (endFail failF 0 0 "boom" 1 (some 0)) := by
  have h1 : Reach (TaskScheduler.start (initSched 1)) := by
    refine Reach.next (Reach.init 1) ?_
      (show step (initSched 1) Action.start =
        some (TaskScheduler.start (initSched 1)) from rfl)
    trivial
  have h2 : Reach (mkMid failF 0 0 0 TaskStatus.pending none none []) := by
    refine Reach.next h1 ?_
      (show step (TaskScheduler.start (initSched 1))
        (Action.submit (taskRec failF 0 TaskStatus.pending none none 0 0
          none none)) =
        some (mkMid failF 0 0 0 TaskStatus.pending none none []) from rfl)
    exact ⟨rfl, rfl, rfl, rfl, rfl, rfl, rfl, rfl⟩
  have h3 : Reach (mkRun failF 0 0 1 (some 0) none) := by
    refine Reach.next h2 ?_
      (pop_step failF 0 0 0 TaskStatus.pending none none [] rfl)
    trivial
  refine Reach.next h3 ?_
    (finish_fail_step failF 0 0 1 (some 0) none "boom" rfl (by omega))
  trivial

/-- Witness for `C9_error_semantics`: part (1) at the concrete failed
state, part (2) at `K = 1`, `N = 2`, `v = 7`. -/
theorem C9_error_semantics_witness :
    (taskRec failF 0 TaskStatus.failed none (some "boom") 0 1 (some 0)
        (some 1)).status = TaskStatus.failed ∧
      (applyActions
          (Action.start ::
            Action.submit (taskRec (flaky 1 7) 2 TaskStatus.pending none
              none 0 0 none none) ::
            retrySched 1)
          (initSched 1) =
        some (endOk (flaky 1 7) 2 1 7 (2 * 1 + 1) (some (2 * 1))) ∧
      ∃ t, TaskScheduler.get_task
            (endOk (flaky 1 7) 2 1 7 (2 * 1 + 1) (some (2 * 1))) "t" =
          some t ∧
        t.status = TaskStatus.completed ∧ t.error = none ∧
        t.retry_count = 1 ∧ t.result = some 7) :=
  ⟨C9_error_semantics.1 (endFail failF 0 0 "boom" 1 (some 0)) c9reach "t"
      (taskRec failF 0 TaskStatus.failed none (some "boom") 0 1 (some 0)
        (some 1)) rfl (by simp [taskRec]),
    C9_error_semantics.2 1 2 7 (by omega)⟩

/--
C10 (confirmed).  (a) A retryable failed attempt ends (after the
re-enqueue) with `completed_time` stamped by the `finally` clause, so the
non-terminal task awaiting its re-execution has non-null `completed_time`
and a non-null `duration`.  (b) On success the `finally` clause
re-stamps `completed_time` after the dependency release: the task record
momentarily carries the completion-time stamp `c` (the value inside
`completeBody`, lines 212-218) and ends with the strictly later stamp
`c + 1`.  (c) The terminal-failure path stamps `completed_time` too.
-/
theorem C10_completed_time_finally :
    (∀ (f : Nat → Except String Nat) (N k c : Nat) (st : TaskStatus)
        (stime ctime : Option Nat) (run : List String) (e : String),
        addS run "t" = ["t"] → f k = Except.error e → k < N →
        applyActions cycleActs (mkMid f N k c st stime ctime run) =
          some (mkMid f N (k + 1) (c + 2) TaskStatus.running (some c)
            (some (c + 1)) ["t"]) ∧
        (taskRec f N TaskStatus.running none none (k + 1) (k + 1) (some c)
          (some (c + 1))).completed_time = some (c + 1) ∧
        (taskRec f N TaskStatus.running none none (k + 1) (k + 1) (some c)
          (some (c + 1))).duration = some 1) ∧
      (∀ (f : Nat → Except String Nat) (N k c : Nat)
        (stime ctime : Option Nat) (v : Nat), f k = Except.ok v →
        step (mkRun f N k c stime ctime) (Action.finish 0) =
          some (endOk f N k v c stime) ∧
        lookupA (completeBody
            { mkRun f N k c stime ctime with workers := [WorkerPhase.idle] }
            "t" (taskRec f N TaskStatus.running (some v) none k (k + 1)
              stime ctime)).tasks "t" =
          some (taskRec f N TaskStatus.completed (some v) none k (k + 1)
            stime (some c)) ∧
        lookupA (endOk f N k v c stime).tasks "t" =
          some (taskRec f N TaskStatus.completed (some v) none k (k + 1)
            stime (some (c + 1))) ∧
        c < c + 1) ∧
      (∀ (f : Nat → Except String Nat) (N k c : Nat)
        (stime ctime : Option Nat) (e : String),
        f k = Except.error e → ¬ k < N →
        step (mkRun f N k c stime ctime) (Action.finish 0) =
          some (endFail f N k e c stime) ∧
        lookupA (endFail f N k e c stime).tasks "t" =
          some (taskRec f N TaskStatus.failed none (some e) k (k + 1)
            stime (some c))) := by
  refine ⟨?_, ?_, ?_⟩
  · intro f N k c st stime ctime run e hrun hf hk
    refine ⟨cycle_run f N k c st stime ctime run e hrun hf hk, rfl, ?_⟩
    simp only [Task.duration, taskRec]
    congr 1
    push_cast
    ring
  · intro f N k c stime ctime v hf
    refine ⟨finish_ok_step f N k c stime ctime v hf, ?_, rfl, by omega⟩
    unfold completeBody check_dependent_tasks mkRun taskRec
    simp [lookupA, insertA, eraseA, releaseDeps, addS, removeS, memS]
  · intro f N k c stime ctime e hf hk
    exact ⟨finish_fail_step f N k c stime ctime e hf hk, rfl⟩

/-- Witness for `C10_completed_time_finally` at concrete parameters. -/
theorem C10_completed_time_finally_witness :
    (applyActions cycleActs
        (mkMid failF 1 0 0 TaskStatus.pending none none []) =
      some (mkMid failF 1 1 2 TaskStatus.running (some 0) (some 1) ["t"]) ∧
      (taskRec failF 1 TaskStatus.running none none 1 1 (some 0)
        (some 1)).completed_time = some 1 ∧
      (taskRec failF 1 TaskStatus.running none none 1 1 (some 0)
        (some 1)).duration = some 1) ∧
      (step (mkRun (flaky 0 7) 1 0 5 (some 4) none) (Action.finish 0) =
        some (endOk (flaky 0 7) 1 0 7 5 (some 4)) ∧
      lookupA (completeBody
          { mkRun (flaky 0 7) 1 0 5 (some 4) none with
              workers := [WorkerPhase.idle] } "t"
          (taskRec (flaky 0 7) 1 TaskStatus.running (some 7) none 0 1
            (some 4) none)).tasks "t" =
        some (taskRec (flaky 0 7) 1 TaskStatus.completed (some 7) none 0 1
          (some 4) (some 5)) ∧
      lookupA (endOk (flaky 0 7) 1 0 7 5 (some 4)).tasks "t" =
        some (taskRec (flaky 0 7) 1 TaskStatus.completed (some 7) none 0 1
          (some 4) (some 6)) ∧
      (5 : Nat) < 5 + 1) ∧
      (step (mkRun failF 2 2 9 (some 8) (some 7)) (Action.finish 0) =
        some (endFail failF 2 2 "boom" 9 (some 8)) ∧
      lookupA (endFail failF 2 2 "boom" 9 (some 8)).tasks "t" =
        some (taskRec failF 2 TaskStatus.failed none (some "boom") 2 3
          (some 8) (some 9))) :=
  ⟨C10_completed_time_finally.1 failF 1 0 0 TaskStatus.pending none none []
      "boom" rfl rfl (by omega),
    C10_completed_time_finally.2.1 (flaky 0 7) 1 0 5 (some 4) none 7
      (by simp [flaky]),
    C10_completed_time_finally.2.2 failF 2 2 9 (some 8) (some 7) "boom" rfl
      (by omega)⟩

end FfcTasks
